import Mathlib

/- Verification of the tourism query pipeline of this repository
   (src/tourism_agent.py, src/tools/geocoding_tool.py, src/tools/weather_tool.py,
   src/tools/places_tool.py, src/schemas.py).

   The pipeline is embedded shallowly: Python strings become `String`/`List Char`,
   Python floats become `ℚ` (or, where a value is only ever interpolated into a
   string, the decimal rendering itself), the three external HTTP services become
   an explicit `Env` of their responses, and each Python function becomes a Lean
   function of the same name.  The `py*` helpers model the exact Python string
   primitives the source uses (`in`, `str.split`, `str.strip`, `str.lower`,
   `str.capitalize`, f-string interpolation). -/

/-- The apostrophe character; several source message templates contain it. -/
def apoc : Char := '\''

/-- One-character apostrophe string, used to assemble the message templates. -/
def apoS : String := String.mk [apoc]

/-- Concatenation of two strings at the `List Char` level. -/
def strCat (a b : String) : String := String.mk (a.data ++ b.data)

/-- Concatenation of a list of strings (for building the message templates). -/
def catList (l : List String) : String := l.foldr strCat ""

/-- Python whitespace (the ASCII characters `str.strip`/`str.split` treat as space). -/
def isPySpace (c : Char) : Bool :=
  c == ' ' || c == '\t' || c == '\n' || c == '\r' || c == '\x0b' || c == '\x0c'

/-- Whether `l` begins with `pre` (model of `str.startswith` / prefix tests). -/
def startsWith : List Char → List Char → Bool
  | _, [] => true
  | [], _ :: _ => false
  | c :: cs, d :: ds => c == d && startsWith cs ds

/-- Whether `sub` occurs contiguously in `l`: the Python `sub in l` test. -/
def occurs (sub : List Char) : List Char → Bool
  | [] => decide (sub = [])
  | c :: rest => startsWith (c :: rest) sub || occurs sub rest

/-- Python `s.strip()`: drop leading and trailing whitespace. -/
def listStrip (l : List Char) : List Char :=
  ((l.dropWhile isPySpace).reverse.dropWhile isPySpace).reverse

/-- Fuelled splitter behind `listSplitOn`; the fuel always dominates the input
length, so the zero-fuel clause is unreachable. -/
def listSplitOnGo (sep : List Char) : ℕ → List Char → List (List Char)
  | _, [] => [[]]
  | 0, l => [l]
  | fuel + 1, c :: rest =>
    if sep ≠ [] ∧ startsWith (c :: rest) sep = true then
      [] :: listSplitOnGo sep fuel (rest.drop (sep.length - 1))
    else
      match listSplitOnGo sep fuel rest with
      | [] => [[c]]
      | h :: t => (c :: h) :: t

/-- Python `s.split(sep)` for a non-empty separator: split at every
non-overlapping occurrence, scanning left to right. -/
def listSplitOn (sep l : List Char) : List (List Char) :=
  listSplitOnGo sep l.length l

theorem dropWhileLenLe {α : Type} (p : α → Bool) (l : List α) :
    (l.dropWhile p).length ≤ l.length := by
  induction l with
  | nil => simp [List.dropWhile]
  | cons c r ih =>
    simp only [List.dropWhile]
    split
    · exact le_trans ih (by simp)
    · simp

/-- Fuelled splitter behind `listSplitWs`; the fuel always dominates the input
length, so the zero-fuel clause is unreachable. -/
def listSplitWsGo : ℕ → List Char → List (List Char)
  | _, [] => []
  | 0, _ => []
  | fuel + 1, c :: rest =>
    if isPySpace c then listSplitWsGo fuel rest
    else
      (c :: rest.takeWhile (fun d => !isPySpace d)) ::
        listSplitWsGo fuel (rest.dropWhile (fun d => !isPySpace d))

/-- Python `s.split()` (no argument): split on whitespace runs, no empty parts. -/
def listSplitWs (l : List Char) : List (List Char) :=
  listSplitWsGo l.length l

/-- Python `sep.join(parts)`. -/
def pyJoin (sep : String) : List String → String
  | [] => ""
  | [x] => x
  | x :: y :: rest => strCat x (strCat sep (pyJoin sep (y :: rest)))

/-- String-level wrappers over the `List Char` primitives. -/
def pyContains (s sub : String) : Bool := occurs sub.data s.data

/-- Python `s.lower()` restricted to ASCII (all pipeline text is ASCII plus `°`). -/
def lowerAscii (c : Char) : Char :=
  if 'A' ≤ c ∧ c ≤ 'Z' then Char.ofNat (c.toNat + 32) else c

/-- Python `s.lower()`. -/
def pyLower (s : String) : String := String.mk (s.data.map lowerAscii)

/-- Python `s.strip()` at the `String` level. -/
def pyStrip (s : String) : String := String.mk (listStrip s.data)

/-- Python `s.split(sep)` at the `String` level. -/
def pySplitOn (s sep : String) : List String :=
  (listSplitOn sep.data s.data).map String.mk

/-- Python `s.capitalize()`: first character uppercased, the rest lowercased. -/
def pyCapitalize (s : String) : String :=
  match s.data with
  | [] => ""
  | c :: rest => String.mk (c.toUpper :: rest.map lowerAscii)

/-- Numeric value of a run of decimal digit characters (Python `int(...)`). -/
def natOfDigits (l : List Char) : ℕ :=
  l.foldl (fun acc c => 10 * acc + (c.toNat - 48)) 0

/-- The decimal digit character for `d < 10` (anything larger gives `9`). -/
def digitChar : ℕ → Char
  | 0 => '0' | 1 => '1' | 2 => '2' | 3 => '3' | 4 => '4'
  | 5 => '5' | 6 => '6' | 7 => '7' | 8 => '8' | _ => '9'

/-- Decimal digits of `n` (most significant first), via a fuelled division loop. -/
def natToDigitsGo : ℕ → ℕ → List Char
  | 0, _ => []
  | fuel + 1, n => if n = 0 then [] else natToDigitsGo fuel (n / 10) ++ [digitChar (n % 10)]

/-- Decimal digits of `n`, `['0']` for zero. -/
def natToDigits (n : ℕ) : List Char :=
  if n = 0 then ['0'] else natToDigitsGo (n + 1) n

/-- Left-pad a digit string with zeros to width `k`. -/
def padZeros (k : ℕ) (ds : List Char) : List Char :=
  List.replicate (k - ds.length) '0' ++ ds

/-- Least `k ≤ 20` with `den ∣ 10 ^ k`: the scale of a finite decimal. -/
def findDenPow (den : ℕ) : Option ℕ :=
  (List.range 21).find? (fun k => decide (den ∣ 10 ^ k))

/-- Model of Python `str(x)` for a float `x`, as the pipeline interpolates
coordinates into the `COORDS:` block: the shortest fixed-point decimal rendering,
always with a fractional part (`str(1.0) = "1.0"`).  Values that are not finite
decimals (impossible for Python floats) fall back to an integer rendering. -/
def ratToPyStr (q : ℚ) : String :=
  match findDenPow q.den with
  | some k =>
      let n : ℕ := q.num.natAbs * (10 ^ k / q.den)
      let ip := n / 10 ^ k
      let fp := n % 10 ^ k
      let fracDigits := if k = 0 then ['0'] else padZeros k (natToDigits fp)
      String.mk ((if q.num < 0 then ['-'] else []) ++ natToDigits ip ++ '.' :: fracDigits)
  | none => String.mk (natToDigits q.num.natAbs)

/-- Model of Python `float(s)` on plain decimal literals (optional sign, digits,
optional fractional part, surrounding whitespace).  Exotic accepted forms
(exponents, `inf`, `nan`) are modelled as failures; the pipeline only ever meets
renderings produced by `ratToPyStr`, which take the plain form. -/
def floatParse (s : String) : Option ℚ :=
  let l := listStrip s.data
  let sl : ℤ × List Char :=
    match l with
    | '-' :: r => (-1, r)
    | '+' :: r => (1, r)
    | r => (1, r)
  let l1 := sl.2
  let ip := l1.takeWhile Char.isDigit
  match l1.dropWhile Char.isDigit with
  | [] => if ip = [] then none else some (mkRat (sl.1 * (natOfDigits ip : ℤ)) 1)
  | '.' :: r2 =>
      let fp := r2.takeWhile Char.isDigit
      if r2.dropWhile Char.isDigit ≠ [] then none
      else if ip = [] ∧ fp = [] then none
      else some (mkRat
        (sl.1 * ((natOfDigits ip : ℤ) * 10 ^ fp.length + (natOfDigits fp : ℤ)))
        (10 ^ fp.length))
  | _ => none

/-- Value of a regex group of the shape `digits` or `digits.digits?`
(what `(\d+\.?\d*)` captures): models Python `float(...)` on that shape. -/
def decValue (l : List Char) : ℚ :=
  let ip := l.takeWhile Char.isDigit
  match l.dropWhile Char.isDigit with
  | '.' :: f =>
    mkRat ((natOfDigits ip : ℤ) * 10 ^ f.length + (natOfDigits f : ℤ)) (10 ^ f.length)
  | _ => mkRat (natOfDigits ip : ℤ) 1

/- Regular-expression engine for the three patterns of
   `TourismAgentWithTools.extract_place_name` (src/tourism_agent.py).  The
   engine implements Python `re.search` semantics for the constructs those
   patterns use: leftmost match position, left-first alternation, greedy
   `*`/`?`, lazy `+?`, a single capturing group, `$`, and `re.IGNORECASE`
   (so the literal and the `[A-Z]`/`[a-zA-Z\s]` classes match both cases). -/

/-- Case-insensitive character equality (`re.IGNORECASE`, ASCII). -/
def ciEq (a b : Char) : Bool := lowerAscii a == lowerAscii b

/-- Case-insensitive prefix test for literal pattern pieces. -/
def ciStartsWith : List Char → List Char → Bool
  | _, [] => true
  | [], _ :: _ => false
  | c :: cs, d :: ds => ciEq c d && ciStartsWith cs ds

/-- The character classes appearing in the extraction patterns. -/
inductive RxCls where
  | ws          -- \s
  | upperLetter -- [A-Z] (under IGNORECASE: any ASCII letter)
  | alphaOrWs   -- [a-zA-Z\s]
  | anyCh       -- . (anything but a newline)
deriving Repr

/-- Whether `c` belongs to class `x`. -/
def clsMatch : RxCls → Char → Bool
  | .ws, c => isPySpace c
  | .upperLetter, c => ('A' ≤ c && c ≤ 'Z') || ('a' ≤ c && c ≤ 'z')
  | .alphaOrWs, c => ('A' ≤ c && c ≤ 'Z') || ('a' ≤ c && c ≤ 'z') || isPySpace c
  | .anyCh, c => c != '\n'

/-- Abstract syntax of the pattern fragment of Python regexes the extractor uses. -/
inductive Rx where
  | lit (s : List Char)
  | cls (x : RxCls)
  | seq (a b : Rx)
  | alt (a b : Rx)
  | star (r : Rx) (lazy : Bool)
  | opt (r : Rx) (lazy : Bool)
  | grp (r : Rx)
  | eol
deriving Repr

/-- Backtracking matcher in continuation-passing style, with Python's
priorities: alternation tries the left branch first, greedy repetition prefers
longer, lazy repetition prefers shorter, a repeated empty match ends the loop.
`cap` carries the single capturing group.  Matching is fuelled; every call site
supplies fuel exceeding the backtracking depth any of the three fixed patterns
can reach on the given input. -/
def rxm : ℕ → Rx → List Char → Option (List Char) →
    (List Char → Option (List Char) → Option (List Char)) → Option (List Char)
  | 0, _, _, _, _ => none
  | fuel + 1, r, cs, cap, k =>
    match r with
    | .lit s => if ciStartsWith cs s then k (cs.drop s.length) cap else none
    | .cls x =>
      match cs with
      | c :: rest => if clsMatch x c then k rest cap else none
      | [] => none
    | .seq a b => rxm fuel a cs cap (fun cs2 cap2 => rxm fuel b cs2 cap2 k)
    | .alt a b => (rxm fuel a cs cap k).orElse (fun _ => rxm fuel b cs cap k)
    | .opt r0 lz =>
      if lz then (k cs cap).orElse (fun _ => rxm fuel r0 cs cap k)
      else (rxm fuel r0 cs cap k).orElse (fun _ => k cs cap)
    | .star r0 lz =>
      if lz then
        (k cs cap).orElse (fun _ =>
          rxm fuel r0 cs cap (fun cs2 cap2 =>
            if cs2.length == cs.length then none
            else rxm fuel (.star r0 lz) cs2 cap2 k))
      else
        (rxm fuel r0 cs cap (fun cs2 cap2 =>
          if cs2.length == cs.length then k cs2 cap2
          else rxm fuel (.star r0 lz) cs2 cap2 k)).orElse (fun _ => k cs cap)
    | .grp r0 =>
      rxm fuel r0 cs cap (fun cs2 _ => k cs2 (some (cs.take (cs.length - cs2.length))))
    | .eol =>
      match cs with
      | [] => k cs cap
      | ['\n'] => k cs cap
      | _ => none

/-- Fuel that dominates the matcher's recursion depth for the fixed patterns. -/
def rxFuel (cs : List Char) : ℕ := (cs.length + 2) * 60

/-- Try the pattern at the current position; on success return group 1. -/
def rxMatchHere (r : Rx) (cs : List Char) : Option (List Char) :=
  rxm (rxFuel cs) r cs none (fun _ cap =>
    match cap with
    | some g => some g
    | none => some [])

/-- `re.search`: try each position left to right (leftmost match wins). -/
def rxSearch (r : Rx) : List Char → Option (List Char)
  | [] => rxMatchHere r []
  | c :: rest =>
    match rxMatchHere r (c :: rest) with
    | some g => some g
    | none => rxSearch r rest

/-- Sequence a list of pattern pieces. -/
def rList : List Rx → Rx
  | [] => .lit []
  | [r] => r
  | r :: s :: rest => .seq r (rList (s :: rest))

/-- Left-priority alternation of a list of branches. -/
def rAlts : List Rx → Rx
  | [] => .lit []
  | [r] => r
  | r :: s :: rest => .alt r (rAlts (s :: rest))

/-- Literal pattern piece. -/
def rLit (s : String) : Rx := .lit s.data

/-- Pattern piece for a whitespace run (at least one). -/
def wsPlus : Rx := .seq (.cls .ws) (.star (.cls .ws) false)

/-- Pattern piece for an optional whitespace run. -/
def wsStar : Rx := .star (.cls .ws) false

/-- The capturing group shared by all three patterns: the lazy run of letters
and whitespace starting with a letter. -/
def placeGroup : Rx :=
  .grp (.seq (.cls .upperLetter) (.seq (.cls .alphaOrWs) (.star (.cls .alphaOrWs) true)))

/-- Pattern 1 of `extract_place_name`:
`(?:trip to|go(?:ing)? to|visit(?:ing)?|plan.*to)\s+([A-Z][a-zA-Z\s]+?)(?:\s+plan|\s+and|\s*,|\s*$)`. -/
def pat1 : Rx :=
  rList [rAlts [rLit "trip to",
                rList [rLit "go", .opt (rLit "ing") false, rLit " to"],
                rList [rLit "visit", .opt (rLit "ing") false],
                rList [rLit "plan", .star (.cls .anyCh) false, rLit "to"]],
         wsPlus, placeGroup,
         rAlts [rList [wsPlus, rLit "plan"],
                rList [wsPlus, rLit "and"],
                rList [wsStar, rLit ","],
                rList [wsStar, .eol]]]

/-- Pattern 2 of `extract_place_name`:
`(?:in|at|for)\s+([A-Z][a-zA-Z\s]+?)(?:\s*,|\s*\?|\s*\.|\s+let|\s+what|\s+and|$)`. -/
def pat2 : Rx :=
  rList [rAlts [rLit "in", rLit "at", rLit "for"],
         wsPlus, placeGroup,
         rAlts [rList [wsStar, rLit ","],
                rList [wsStar, rLit "?"],
                rList [wsStar, rLit "."],
                rList [wsPlus, rLit "let"],
                rList [wsPlus, rLit "what"],
                rList [wsPlus, rLit "and"],
                .eol]]

/-- Pattern 3 of `extract_place_name`: a lazy capitalized run followed by
one of the keyword suffixes (the pattern source escapes the apostrophe). -/
def pat3 : Rx :=
  rList [placeGroup,
         rAlts [rList [wsPlus, .lit ("let".data ++ [apoc, 's'])],
                rList [wsPlus, rLit "what"],
                rList [wsPlus, rLit "temperature"],
                rList [wsPlus, rLit "weather"],
                rList [wsPlus, rLit "places"]]]

/-- First pattern that matches anywhere in the query wins (the `for pattern
in patterns` loop). -/
def firstMatch : List Rx → List Char → Option (List Char)
  | [], _ => none
  | p :: ps, cs =>
    match rxSearch p cs with
    | some g => some g
    | none => firstMatch ps cs

/-- Python `str.isupper()` on a word's first character (ASCII). -/
def isUpperCh (c : Char) : Bool := 'A' ≤ c && c ≤ 'Z'

/-- Join words with single spaces (`' '.join(...)`). -/
def joinSpace : List (List Char) → List Char
  | [] => []
  | [w] => w
  | w :: x :: rest => w ++ ' ' :: joinSpace (x :: rest)

/-- Title-case a regex-extracted place:
`' '.join(word.capitalize() for word in place.split())`. -/
def titleWords (place : List Char) : String :=
  pyJoin " " ((listSplitWs place).map (fun w => pyCapitalize (String.mk w)))

/-- The run of capitalized words after the fallback's seed word
(`for next_word in words[i+1:]: ... else break`). -/
def takeCapRun : List (List Char) → List (List Char)
  | [] => []
  | w :: rest =>
    match w with
    | c :: _ => if isUpperCh c then w :: takeCapRun rest else []
    | [] => []

/-- The stop-words of the fallback scan. -/
def fallbackStops : List (List Char) :=
  ["i", "hey", "what", "and", "the", "is", "are", "am"].map String.data

/-- Fallback scan of `extract_place_name`: first capitalized word of more than
one letter that is not a stop-word seeds a run of capitalized words. -/
def fallbackScan : List (List Char) → Option (List Char)
  | [] => none
  | w :: rest =>
    if w ≠ [] ∧ w.length > 1 ∧
        (match w with | c :: _ => isUpperCh c | [] => false) = true ∧
        w.map lowerAscii ∉ fallbackStops then
      some (listStrip (joinSpace (w :: takeCapRun rest)))
    else fallbackScan rest

/-- The rule-3 word test: at most three words, each capitalized or `and`/`the`. -/
def shortCapQuery (words : List (List Char)) : Bool :=
  decide (words.length ≤ 3) &&
    words.all (fun w =>
      (match w with | c :: _ => isUpperCh c | [] => false) ||
        decide (w.map lowerAscii ∈ (["and", "the"].map String.data)))

/-- `TourismAgentWithTools.extract_place_name` (src/tourism_agent.py):
try the three regex patterns in order (title-casing a regex hit), then the
whole-query rule for short capitalized queries, then the fallback scan. -/
def extract_place_name (query : String) : String :=
  match firstMatch [pat1, pat2, pat3] query.data with
  | some g => titleWords (listStrip g)
  | none =>
    let words := listSplitWs (listStrip query.data)
    if shortCapQuery words then String.mk (listStrip query.data)
    else
      match fallbackScan words with
      | some run => String.mk run
      | none => ""

/- The data model: external-service responses and the response schema
   (src/schemas.py).  The three HTTP services are modelled by an `Env` the
   pipeline reads instead of performing network calls; the same `Env` answers
   every geocoding call of one request (a stable data source). -/

/-- Outcome of one Nominatim geocoding call (src/tools/geocoding_tool.py):
one best match, zero matches, a timeout, or a transport error. -/
inductive GeoOutcome where
  | found (displayName : String) (lat lon : ℚ)
  | notFound
  | timeout
  | transportError (detail : String)
deriving DecidableEq, Repr

/-- The dictionary `get_coordinates` returns. -/
structure GeoResult where
  success : Bool
  place : Option String
  latitude : Option ℚ
  longitude : Option ℚ
  error : Option String
deriving DecidableEq, Repr

/-- f-string interpolation of a possibly-`None` value. -/
def optStr : Option String → String
  | some s => s
  | none => "None"

/-- `get_coordinates` (src/tools/geocoding_tool.py): build the result
dictionary from the service outcome. -/
def get_coordinates (place_name : String) (g : GeoOutcome) : GeoResult :=
  match g with
  | .found d la lo => ⟨true, some d, some la, some lo, none⟩
  | .notFound =>
      ⟨false, none, none, none,
       some (catList ["Place ", apoS, place_name, apoS,
                      " not found. Please check the spelling or try a different name."])⟩
  | .timeout =>
      ⟨false, none, none, none, some "Geocoding service timed out. Please try again."⟩
  | .transportError e =>
      ⟨false, none, none, none, some (strCat "Error connecting to geocoding service: " e)⟩

/-- The `current` member of an Open-Meteo forecast response
(src/tools/weather_tool.py).  The two numbers are kept as the decimal text the
JSON carries, since the tool only ever interpolates them into its sentence. -/
structure CurrentWeather where
  temperature_2m : Option String
  precipitation_probability : Option String
deriving DecidableEq, Repr

/-- Outcome of one weather or places HTTP call. -/
inductive FetchOutcome (α : Type) where
  | ok (data : α)
  | timeout
  | requestError (detail : String)
deriving DecidableEq, Repr

/-- One Overpass element (src/tools/places_tool.py): its type, the
`tags.get("name")` value, the optional point coordinate, and the optional
`center` member with its own optional coordinates. -/
structure OsmElement where
  type : String
  name : Option String
  lat : Option ℚ
  lon : Option ℚ
  center : Option (Option ℚ × Option ℚ)
deriving DecidableEq, Repr

/-- The responses the three external services give during one request. -/
structure Env where
  geo : GeoOutcome
  weather : FetchOutcome CurrentWeather
  places : FetchOutcome (List OsmElement)
deriving DecidableEq, Repr

/-- `geo_result["place"].split(",")[0]`: the short display label. -/
def shortPlace (display : String) : String :=
  match pySplitOn display "," with
  | p :: _ => p
  | [] => ""

/-- The lowercase sentinel the orchestrator greps for: `"don't know"`. -/
def dontKnowKey : String := catList ["don", apoS, "t know"]

/-- The failure sentence both tools return when geocoding fails:
`f"I don't know if the place '{place_name}' exists. {geo_result['error']}"`. -/
def dontKnowMsg (place_name : String) (err : Option String) : String :=
  catList ["I don", apoS, "t know if the place ", apoS, place_name, apoS,
           " exists. ", optStr err]

/-- `get_weather` (src/tools/weather_tool.py): geocode, then fetch the current
temperature and precipitation probability and format the sentence.  A missing
`precipitation_probability` defaults to `0`; a missing `temperature_2m` gives
the "currently unavailable" sentence. -/
def get_weather (place_name : String) (env : Env) : String :=
  let geo := get_coordinates place_name env.geo
  if geo.success = false then dontKnowMsg place_name geo.error
  else
    let place_display := shortPlace (optStr geo.place)
    match env.weather with
    | .timeout => "Weather service timed out. Please try again."
    | .requestError e => strCat "Error fetching weather data: " e
    | .ok cur =>
      match cur.temperature_2m with
      | some t =>
          catList ["In ", place_display, " it", apoS, "s currently ", t,
                   "°C with a chance of ", cur.precipitation_probability.getD "0",
                   "% to rain."]
      | none => catList ["Weather data is currently unavailable for ", place_display, "."]

/-- The coordinate pair after the way-centre fallback: if either direct
coordinate is missing and the element is a way with a `center`, both are read
from the centre. -/
def elementResolved (e : OsmElement) : Option ℚ × Option ℚ :=
  if e.lat = none ∨ e.lon = none then
    match e.center with
    | some c => if e.type = "way" then (c.1, c.2) else (e.lat, e.lon)
    | none => (e.lat, e.lon)
  else (e.lat, e.lon)

/-- One line of the `COORDS:` block: `f"{name}|{lat}|{lon}"`. -/
def coordLine (n : String) (la lo : ℚ) : String :=
  catList [n, "|", ratToPyStr la, "|", ratToPyStr lo]

/-- A kept name's coordinate contribution: when the resolved coordinates are
both truthy (non-`None` and non-zero — Python `if lat and lon:`) a `COORDS:`
line is appended, otherwise nothing is. -/
def collectCoords (e : OsmElement) (n : String) (coords : List String) : List String :=
  match elementResolved e with
  | (some la, some lo) =>
    if la ≠ 0 ∧ lo ≠ 0 then coords ++ [coordLine n la lo] else coords
  | _ => coords

/-- The collection loop of `get_tourist_places`: walk the elements keeping
truthy, unseen names (Python truthiness: `None` and `""` are falsy), appending
each kept name's coordinate line via `collectCoords`; collection breaks once
five names are kept.  `seen` mirrors the source's `seen_names` set, which
always holds exactly the names of `places`. -/
def collectGo : List OsmElement → List String → List String → List String →
    List String × List String
  | [], places, coords, _ => (places, coords)
  | e :: rest, places, coords, seen =>
    match e.name with
    | none => collectGo rest places coords seen
    | some n =>
      if n ≠ "" ∧ n ∉ seen then
        if (places ++ [n]).length ≥ 5 then (places ++ [n], collectCoords e n coords)
        else collectGo rest (places ++ [n]) (collectCoords e n coords) (seen ++ [n])
      else collectGo rest places coords seen

/-- The collected names and `COORDS:` lines, from empty accumulators. -/
def collectPlaces (elems : List OsmElement) : List String × List String :=
  collectGo elems [] [] []

/-- `get_tourist_places` (src/tools/places_tool.py): geocode, then collect up
to five uniquely named features and format the dual-section payload. -/
def get_tourist_places (place_name : String) (env : Env) : String :=
  let geo := get_coordinates place_name env.geo
  if geo.success = false then dontKnowMsg place_name geo.error
  else
    let place_display := shortPlace (optStr geo.place)
    match env.places with
    | .timeout => "Tourist places service timed out. Please try again."
    | .requestError e => strCat "Error fetching tourist places: " e
    | .ok elements =>
      let pc := collectPlaces elements
      if pc.1 ≠ [] then
        catList ["In ", place_display, " these are the places you can go,\n",
                 pyJoin "\n" pc.1, "\nCOORDS:\n", pyJoin "\n" pc.2]
      else
        catList ["I couldn", apoS, "t find specific tourist attractions in ",
                 place_display,
                 " in the database, but it may still be a great place to visit!"]

/- The orchestrator (src/tourism_agent.py): `TourismResponse`, the re-parsing
   of the tool strings, and `run`. -/

/-- `AttractionWithCoords` (src/schemas.py). -/
structure AttractionWithCoords where
  name : String
  latitude : ℚ
  longitude : ℚ
deriving DecidableEq, Repr

/-- `TourismResponse` (src/schemas.py), with the schema's defaults. -/
structure TourismResponse where
  place : String
  has_weather : Bool := false
  has_places : Bool := false
  latitude : Option ℚ := none
  longitude : Option ℚ := none
  temperature : Option ℚ := none
  precipitation_chance : Option ℤ := none
  attractions : Option (List String) := none
  attractions_with_coords : Option (List AttractionWithCoords) := none
  message : String := ""
  success : Bool := true
  error : Option String := none
deriving DecidableEq, Repr

/-- Match of `re.search(r'(\d+\.?\d*)°C', s)` at one position: the regex
matches there exactly when a non-empty maximal digit run, optionally followed
by a dot and a further maximal digit run, is followed immediately by `"°C"`
(backtracking inside the greedy `\d+`/`\d*` cannot help, because the character
after a shortened run is a digit again); the group is the numeric text. -/
def matchTempAt (l : List Char) : Option (List Char) :=
  let d1 := l.takeWhile Char.isDigit
  if d1 = [] then none
  else
    match l.dropWhile Char.isDigit with
    | '.' :: r2 =>
      if startsWith (r2.dropWhile Char.isDigit) "°C".data then
        some (d1 ++ '.' :: r2.takeWhile Char.isDigit)
      else none
    | r1 => if startsWith r1 "°C".data then some d1 else none

/-- `re.search(r'(\d+\.?\d*)°C', s)`: leftmost position wins. -/
def searchTemp : List Char → Option (List Char)
  | [] => none
  | c :: rest =>
    match matchTempAt (c :: rest) with
    | some g => some g
    | none => searchTemp rest

/-- Match of `re.search(r'(\d+)%', s)` at one position: a non-empty maximal
digit run followed immediately by `'%'`. -/
def matchPrecipAt (l : List Char) : Option (List Char) :=
  let d := l.takeWhile Char.isDigit
  if d = [] then none
  else if startsWith (l.dropWhile Char.isDigit) ['%'] then some d else none

/-- `re.search(r'(\d+)%', s)`: leftmost position wins. -/
def searchPrecip : List Char → Option (List Char)
  | [] => none
  | c :: rest =>
    match matchPrecipAt (c :: rest) with
    | some g => some g
    | none => searchPrecip rest

/-- The body of the per-line `try`: `float(...)` on both coordinate texts,
building the record when both succeed (the bare `except` skips the line). -/
def parseTriple (nm la lo : String) : Option AttractionWithCoords :=
  match floatParse la, floatParse lo with
  | some qa, some qb => some ⟨pyStrip nm, qa, qb⟩
  | _, _ => none

/-- Parse one line of the `COORDS:` block: `name, lat, lon = line.split('|')`
then `float(...)` on both coordinates, skipping the line (the bare `except`)
when the unpacking or a conversion fails. -/
def parseCoordLine (cl : String) : Option AttractionWithCoords :=
  if occurs ['|'] cl.data then
    match pySplitOn cl "|" with
    | [nm, la, lo] => parseTriple nm la lo
    | _ => none
  else none

/-- Parse the text after the `COORDS:` marker: `parts[1].strip().split('\n')`
and the per-line loop. -/
def parseCoordsBlock (block : String) : List AttractionWithCoords :=
  (pySplitOn (pyStrip block) "\n").filterMap parseCoordLine

/-- The final message composition of `run`: the weather part and the places
part joined with `" And "`, one part verbatim, or the fallback sentence. -/
def composeMessage (parts : List String) (place_name : String) : String :=
  match parts with
  | [a, b] => catList [a, " And ", b]
  | [a] => a
  | _ => strCat "Information for " place_name

/-- The places sentinel `run` greps for. -/
def placesSentinel : String := "these are the places you can go"

/-- The lowercase `"couldn't find"` sentinel. -/
def couldntFindKey : String := catList ["couldn", apoS, "t find"]

/-- The places step of `run`: call `get_tourist_places`, parse the dual-section
payload on the success sentinel, abort on the `"don't know"` sentinel, set an
empty attraction list on the `"couldn't find"` sentinel, and otherwise fall
through silently; then compose the message from the accumulated parts. -/
def placesStep (r : TourismResponse) (parts : List String) (place_name : String)
    (env : Env) : TourismResponse :=
  let places_result := get_tourist_places place_name env
  if pyContains places_result placesSentinel then
    let pieces := pySplitOn places_result "COORDS:"
    let main_text := pieces.headD ""
    let lines := (pySplitOn main_text "\n").drop 1
    let attractions := lines.filterMap (fun l => if pyStrip l ≠ "" then some (pyStrip l) else none)
    let r1 := { r with attractions := some attractions }
    let r2 :=
      if pieces.length > 1 then
        { r1 with attractions_with_coords := some (parseCoordsBlock (pieces.getD 1 "")) }
      else r1
    { r2 with message := composeMessage (parts ++ [pyStrip main_text]) place_name }
  else if pyContains (pyLower places_result) dontKnowKey then
    { r with success := false, error := some places_result }
  else if pyContains (pyLower places_result) couldntFindKey then
    { r with attractions := some [],
             message := composeMessage (parts ++ [places_result]) place_name }
  else
    { r with message := composeMessage parts place_name }

/-- The empty-query terminal response of `run`. -/
def emptyQueryResp : TourismResponse :=
  { place := "Unknown", success := false,
    message := "Please provide a query or place name.", error := some "Empty query" }

/-- The extraction-failure terminal response of `run`. -/
def noPlaceResp : TourismResponse :=
  { place := "Unknown", success := false,
    message := catList ["I couldn", apoS, "t identify which place you", apoS,
                        "re asking about. Please mention a place name."],
    error := some "No place name found in query" }

/-- `TourismAgentWithTools.run` (src/tourism_agent.py): the full pipeline.
The weather branch re-parses the tool's sentence with the two regexes when it
carries `"°C"` and `"currently"`, aborts on the `"don't know"` sentinel, and
otherwise falls through silently (nothing is appended to the message parts). -/
def run (user_query : String) (env : Env) : TourismResponse :=
  if user_query = "" ∨ pyStrip user_query = "" then emptyQueryResp
  else
    let place_name := extract_place_name user_query
    if place_name = "" then noPlaceResp
    else
      let geo := get_coordinates place_name env.geo
      let response : TourismResponse :=
        { place := place_name, has_weather := true, has_places := true,
          success := true, message := "",
          latitude := if geo.success then geo.latitude else none,
          longitude := if geo.success then geo.longitude else none }
      let weather_result := get_weather place_name env
      if pyContains weather_result "°C" && pyContains weather_result "currently" then
        let r1 := { response with
          temperature := (searchTemp weather_result.data).map decValue,
          precipitation_chance :=
            (searchPrecip weather_result.data).map (fun d => (natOfDigits d : ℤ)) }
        placesStep r1 [weather_result] place_name env
      else if pyContains (pyLower weather_result) dontKnowKey then
        { response with success := false, error := some weather_result }
      else
        placesStep response [] place_name env

/-- The attributes `TourismAgentWithTools.__init__` stores (the LLM client's
configuration).  `run` neither reads nor writes any of them. -/
structure TourismAgent where
  api_key : String := ""
  model : String := "openai/gpt-oss-20b"
  temperature : ℚ := 0.7
  max_tokens : ℕ := 1000
deriving DecidableEq, Repr

/-- A `run` call on the agent object: the method returns its response and the
object as it leaves it — unchanged, since `run` assigns no attribute. -/
def agentRun (self : TourismAgent) (q : String) (env : Env) :
    TourismResponse × TourismAgent :=
  (run q env, self)

/- Lemmas about the string primitives. -/

theorem strCat_data (a b : String) : (strCat a b).data = a.data ++ b.data := rfl

theorem mk_data_self (s : String) : String.mk s.data = s := rfl

theorem catList_cons (s : String) (l : List String) :
    catList (s :: l) = strCat s (catList l) := rfl

theorem catList_nil : catList [] = "" := rfl

theorem swSelfApp (a b : List Char) : startsWith (a ++ b) a = true := by
  induction a with
  | nil => cases b <;> simp [startsWith]
  | cons c cs ih => simp [startsWith, ih]

theorem swApp {l sub : List Char} (h : startsWith l sub = true) (b : List Char) :
    startsWith (l ++ b) sub = true := by
  induction sub generalizing l with
  | nil => simp [startsWith]
  | cons d ds ih =>
    cases l with
    | nil => simp [startsWith] at h
    | cons c cs =>
      simp only [startsWith, Bool.and_eq_true] at h
      simp only [List.cons_append, startsWith, Bool.and_eq_true]
      exact ⟨h.1, ih h.2⟩

theorem swNilIff (sub : List Char) : startsWith [] sub = true ↔ sub = [] := by
  cases sub <;> simp [startsWith]

theorem occursNil (l : List Char) : occurs [] l = true := by
  cases l <;> simp [occurs, startsWith]

theorem occursOfSw {sub l : List Char} (h : startsWith l sub = true) :
    occurs sub l = true := by
  cases l with
  | nil => rw [(swNilIff sub).mp h]; exact occursNil []
  | cons c cs => simp [occurs, h]

theorem occursAppL {sub a : List Char} (h : occurs sub a = true) (b : List Char) :
    occurs sub (a ++ b) = true := by
  induction a with
  | nil =>
    simp only [occurs, decide_eq_true_eq] at h
    subst h; exact occursNil b
  | cons c cs ih =>
    simp only [occurs, Bool.or_eq_true] at h
    rcases h with h | h
    · simpa [occurs] using Or.inl (swApp h b)
    · simpa [occurs] using Or.inr (ih h)

theorem occursAppR {sub b : List Char} (h : occurs sub b = true) (a : List Char) :
    occurs sub (a ++ b) = true := by
  induction a with
  | nil => simpa using h
  | cons c cs ih => simpa [occurs] using Or.inr ih

theorem swTake {l sub : List Char} (h : startsWith l sub = true) :
    sub = l.take sub.length := by
  induction sub generalizing l with
  | nil => simp
  | cons d ds ih =>
    cases l with
    | nil => simp [startsWith] at h
    | cons c cs =>
      simp only [startsWith, Bool.and_eq_true, beq_iff_eq] at h
      obtain ⟨h1, h2⟩ := h
      subst h1
      simp only [List.length_cons, List.take_succ_cons, List.cons.injEq, true_and]
      exact ih h2

theorem swOfTake {l sub : List Char} (h : sub = l.take sub.length) :
    startsWith l sub = true := by
  induction sub generalizing l with
  | nil => simp [startsWith]
  | cons d ds ih =>
    cases l with
    | nil => simp at h
    | cons c cs =>
      simp only [List.length_cons, List.take_succ_cons, List.cons.injEq] at h
      simp only [startsWith, Bool.and_eq_true, beq_iff_eq]
      exact ⟨h.1.symm, ih h.2⟩

theorem occursSingleton (c : Char) (l : List Char) :
    occurs [c] l = true ↔ c ∈ l := by
  induction l with
  | nil => simp [occurs]
  | cons d rest ih =>
    simp only [occurs, startsWith, Bool.or_eq_true, Bool.and_eq_true, beq_iff_eq,
      List.mem_cons, ih, and_true]
    exact ⟨fun h => h.elim (fun h => Or.inl h.symm) Or.inr,
           fun h => h.elim (fun h => Or.inl h.symm) Or.inr⟩

theorem occursConsR {sub : List Char} (e : Char) {l : List Char}
    (h : occurs sub l = true) : occurs sub (e :: l) = true := by
  simp [occurs, h]

theorem occursSplit {sub x y : List Char} {c : Char}
    (h : occurs sub (x ++ (c :: y)) = true) :
    c ∈ sub ∨ occurs sub x = true ∨ occurs sub y = true := by
  induction x with
  | nil =>
    simp only [List.nil_append, occurs, Bool.or_eq_true] at h
    rcases h with h | h
    · cases sub with
      | nil => exact Or.inr (Or.inl (occursNil []))
      | cons d ds =>
        simp only [startsWith, Bool.and_eq_true, beq_iff_eq] at h
        exact Or.inl (by simp [h.1])
    · exact Or.inr (Or.inr h)
  | cons e x' ih =>
    simp only [List.cons_append, occurs, Bool.or_eq_true] at h
    rcases h with h | h
    · by_cases hlen : sub.length ≤ (e :: x').length
      · have hs : sub = List.take sub.length ((e :: x') ++ (c :: y)) := by
          simpa using swTake h
        rw [List.take_append_of_le_length hlen] at hs
        exact Or.inr (Or.inl (occursOfSw (swOfTake hs)))
      · have hs : sub = List.take sub.length ((e :: x') ++ (c :: y)) := by
          simpa using swTake h
        rw [List.take_append_eq_append_take] at hs
        have hpos : 0 < sub.length - (e :: x').length := by
          simp only [not_le] at hlen; omega
        have : c ∈ (c :: y).take (sub.length - (e :: x').length) := by
          cases hk : sub.length - (e :: x').length with
          | zero => omega
          | succ m => simp [List.take_succ_cons]
        rw [hs]
        exact Or.inl (by
          refine List.mem_append.mpr (Or.inr ?_)
          simpa using this)
    · rcases ih h with h2 | h2 | h2
      · exact Or.inl h2
      · exact Or.inr (Or.inl (occursConsR e h2))
      · exact Or.inr (Or.inr h2)

theorem occursSplitFalse {sub x y : List Char} {c : Char}
    (hc : c ∉ sub) (hx : occurs sub x = false) (hy : occurs sub y = false) :
    occurs sub (x ++ (c :: y)) = false := by
  by_contra hne
  have := @occursSplit sub x y c (by
    cases h : occurs sub (x ++ (c :: y))
    · exact absurd h hne
    · rfl)
  rcases this with h | h | h
  · exact hc h
  · rw [hx] at h; exact Bool.false_ne_true h
  · rw [hy] at h; exact Bool.false_ne_true h

theorem occursFalseHead {d : Char} {ds l : List Char}
    (h : ∀ c ∈ l, c ≠ d) : occurs (d :: ds) l = false := by
  induction l with
  | nil => simp [occurs]
  | cons c rest ih =>
    have hcd : c ≠ d := h c (by simp)
    simp only [occurs, startsWith, Bool.or_eq_false_iff]
    constructor
    · simp [hcd]
    · exact ih (fun a ha => h a (by simp [ha]))

theorem listSplitOnGoFuel (sep : List Char) :
    ∀ (f1 : ℕ) (f2 : ℕ) (l : List Char), l.length ≤ f1 → l.length ≤ f2 →
      listSplitOnGo sep f1 l = listSplitOnGo sep f2 l := by
  intro f1
  induction f1 with
  | zero =>
    intro f2 l h1 h2
    cases l with
    | nil => cases f2 <;> rfl
    | cons c rest => simp at h1
  | succ f1p ih =>
    intro f2 l h1 h2
    cases l with
    | nil => cases f2 <;> rfl
    | cons c rest =>
      cases f2 with
      | zero => simp at h2
      | succ f2p =>
        simp only [List.length_cons, Nat.add_le_add_iff_right] at h1 h2
        simp only [listSplitOnGo]
        by_cases hc : sep ≠ [] ∧ startsWith (c :: rest) sep = true
        · rw [if_pos hc, if_pos hc]
          have hd1 : (rest.drop (sep.length - 1)).length ≤ f1p := by
            simp only [List.length_drop]; omega
          have hd2 : (rest.drop (sep.length - 1)).length ≤ f2p := by
            simp only [List.length_drop]; omega
          rw [ih f2p _ hd1 hd2]
        · rw [if_neg hc, if_neg hc, ih f2p rest h1 h2]

theorem listSplitOnNil (sep : List Char) : listSplitOn sep [] = [[]] := rfl

theorem listSplitOnCons (sep : List Char) (c : Char) (rest : List Char) :
    listSplitOn sep (c :: rest) =
      if sep ≠ [] ∧ startsWith (c :: rest) sep = true then
        [] :: listSplitOn sep (rest.drop (sep.length - 1))
      else
        match listSplitOn sep rest with
        | [] => [[c]]
        | h :: t => (c :: h) :: t := by
  unfold listSplitOn
  simp only [List.length_cons, listSplitOnGo]
  by_cases hc : sep ≠ [] ∧ startsWith (c :: rest) sep = true
  · rw [if_pos hc, if_pos hc]
    rw [listSplitOnGoFuel sep rest.length (rest.drop (sep.length - 1)).length _
      (by simp only [List.length_drop]; omega) le_rfl]
  · rw [if_neg hc, if_neg hc]

theorem splitOnNone {sep l : List Char} (hne : sep ≠ []) (h : occurs sep l = false) :
    listSplitOn sep l = [l] := by
  induction l with
  | nil => exact listSplitOnNil sep
  | cons c rest ih =>
    simp only [occurs, Bool.or_eq_false_iff] at h
    rw [listSplitOnCons]
    rw [if_neg (by
      rintro ⟨-, hs⟩
      rw [h.1] at hs
      exact Bool.false_ne_true hs)]
    rw [ih h.2]

theorem splitOnCharBoundary {c : Char} {x y : List Char} (hx : c ∉ x) :
    listSplitOn [c] (x ++ (c :: y)) = x :: listSplitOn [c] y := by
  induction x with
  | nil =>
    simp only [List.nil_append]
    rw [listSplitOnCons]
    rw [if_pos (by
      refine ⟨by simp, ?_⟩
      simp [startsWith])]
    simp
  | cons d x' ih =>
    have hdc : d ≠ c := fun h => hx (by simp [h])
    have hx' : c ∉ x' := fun h => hx (by simp [h])
    simp only [List.cons_append]
    rw [listSplitOnCons]
    rw [if_neg (by
      rintro ⟨-, hs⟩
      simp only [startsWith, Bool.and_eq_true, beq_iff_eq] at hs
      exact hdc hs.1)]
    rw [ih hx']

theorem splitOnMarker {sep A B : List Char} (hne : sep ≠ [])
    (hA : occurs sep A = false)
    (hnb : ∀ k, 0 < k → k < sep.length → ¬ sep.drop k = sep.take (sep.length - k)) :
    listSplitOn sep (A ++ (sep ++ B)) = A :: listSplitOn sep B := by
  induction A with
  | nil =>
    cases hsep : sep with
    | nil => exact absurd hsep hne
    | cons s ss =>
      subst hsep
      simp only [List.nil_append, List.cons_append]
      rw [listSplitOnCons]
      rw [if_pos ⟨by simp, by simpa using swSelfApp (s :: ss) B⟩]
      have hdrop : List.drop ((s :: ss).length - 1) (ss ++ B) = B := by
        simp only [List.length_cons, Nat.add_sub_cancel]
        simpa using List.drop_left ss B
      simp only [List.length_cons, Nat.add_sub_cancel] at hdrop ⊢
      rw [hdrop]
  | cons a A' ih =>
    have hA' : occurs sep A' = false := by
      rcases Bool.or_eq_false_iff.mp (by simpa [occurs] using hA) with ⟨-, h2⟩
      exact h2
    have hswf : startsWith (a :: (A' ++ (sep ++ B))) sep = false := by
      by_contra hb
      have hsw : startsWith (a :: (A' ++ (sep ++ B))) sep = true := by
        cases h : startsWith (a :: (A' ++ (sep ++ B))) sep
        · exact absurd h hb
        · rfl
      by_cases hlen : sep.length ≤ (a :: A').length
      · have hs : sep = List.take sep.length ((a :: A') ++ (sep ++ B)) := by
          simpa using swTake hsw
        rw [List.take_append_of_le_length hlen] at hs
        have : occurs sep (a :: A') = true := occursOfSw (swOfTake hs)
        have hfalse : occurs sep (a :: A') = false := by
          simpa [occurs] using hA
        rw [hfalse] at this
        exact Bool.false_ne_true this
      · have hs : sep = List.take sep.length ((a :: A') ++ (sep ++ B)) := by
          simpa using swTake hsw
        rw [List.take_append_eq_append_take] at hs
        have hm : sep.length - (a :: A').length ≤ sep.length := Nat.sub_le _ _
        rw [List.take_append_of_le_length hm] at hs
        have hk1 : 0 < (a :: A').length := by simp
        have hk2 : (a :: A').length < sep.length := by omega
        have htake : List.take sep.length (a :: A') = a :: A' :=
          List.take_of_length_le (by omega)
        rw [htake] at hs
        have hdropk : sep.drop (a :: A').length = sep.take (sep.length - (a :: A').length) := by
          conv_lhs => rw [hs]
          exact List.drop_left _ _
        exact hnb (a :: A').length hk1 hk2 hdropk
    simp only [List.cons_append]
    rw [listSplitOnCons]
    rw [if_neg (by
      rintro ⟨-, hs⟩
      rw [hswf] at hs
      exact Bool.false_ne_true hs)]
    rw [ih hA']

/- Lemmas about `listStrip`. -/

/-- Right-strip helper: what `listStrip` does after the left pass. -/
def sRight (l : List Char) : List Char := (l.reverse.dropWhile isPySpace).reverse

theorem listStripAsSRight (l : List Char) :
    listStrip l = sRight (l.dropWhile isPySpace) := rfl

/-- No trailing whitespace, phrased through the reversed list. -/
def noTrailWs (l : List Char) : Prop :=
  List.dropWhile isPySpace l.reverse = l.reverse

theorem dropWhileSelfHead {p : Char → Bool} {c : Char} {l : List Char}
    (h : List.dropWhile p (c :: l) = c :: l) : p c = false := by
  cases hp : p c
  · rfl
  · rw [List.dropWhile_cons_of_pos hp] at h
    have := dropWhileLenLe p l
    have hl := congrArg List.length h
    simp only [List.length_cons] at hl
    omega

theorem dropWhileLenEq {p : Char → Bool} {l : List Char}
    (h : (List.dropWhile p l).length = l.length) : List.dropWhile p l = l := by
  induction l with
  | nil => simp
  | cons c r ih =>
    cases hp : p c
    · rw [List.dropWhile_cons_of_neg (by simp [hp])]
    · rw [List.dropWhile_cons_of_pos hp] at h ⊢
      have := dropWhileLenLe p r
      simp only [List.length_cons] at h
      omega

theorem stripSelfParts {l : List Char} (h : listStrip l = l) :
    List.dropWhile isPySpace l = l ∧ noTrailWs l := by
  have h1 : List.dropWhile isPySpace l = l := by
    apply dropWhileLenEq
    have hlen1 : (listStrip l).length ≤ (List.dropWhile isPySpace l).length := by
      unfold listStrip
      simp only [List.length_reverse]
      calc ((List.dropWhile isPySpace l).reverse.dropWhile isPySpace).length
          ≤ (List.dropWhile isPySpace l).reverse.length := dropWhileLenLe _ _
        _ = (List.dropWhile isPySpace l).length := by simp
    have hlen2 := dropWhileLenLe isPySpace l
    rw [h] at hlen1
    omega
  refine ⟨h1, ?_⟩
  have h2 : sRight l = l := by
    rw [listStripAsSRight, h1] at h
    exact h
  unfold sRight at h2
  have h4 := congrArg List.reverse h2
  simpa only [List.reverse_reverse] using h4

theorem sRightEqSelf {l : List Char} (h : noTrailWs l) : sRight l = l := by
  unfold sRight
  rw [h]
  simp

theorem noTrailWsAppend {x y : List Char} (hy : noTrailWs y) (hyne : y ≠ []) :
    noTrailWs (x ++ y) := by
  unfold noTrailWs at hy ⊢
  rw [List.reverse_append]
  cases hrev : y.reverse with
  | nil => exact absurd (by simpa using hrev) hyne
  | cons c t =>
    rw [hrev] at hy
    have hc : isPySpace c = false := dropWhileSelfHead hy
    simp only [List.cons_append]
    rw [List.dropWhile_cons_of_neg (by simp [hc])]

theorem sRightAppendSpace {x : List Char} {c : Char} (hc : isPySpace c = true) :
    sRight (x ++ [c]) = sRight x := by
  unfold sRight
  rw [List.reverse_append]
  simp only [List.reverse_cons, List.reverse_nil, List.nil_append, List.singleton_append]
  rw [List.dropWhile_cons_of_pos hc]

theorem stripConsNospace {c : Char} {l : List Char} (hc : isPySpace c = false) :
    listStrip (c :: l) = sRight (c :: l) := by
  rw [listStripAsSRight, List.dropWhile_cons_of_neg (by simp [hc])]

/-- Stripping a string that starts with a non-space character and ends with a
non-trailing-whitespace block followed by one final newline removes exactly
that newline. -/
theorem stripHeadBlockNl {c : Char} {x y : List Char} (hc : isPySpace c = false)
    (hy : noTrailWs y) (hyne : y ≠ []) (hshape : ∃ m, x = m ++ y) :
    listStrip (c :: (x ++ ['\n'])) = c :: x := by
  obtain ⟨m, rfl⟩ := hshape
  rw [stripConsNospace hc]
  have h1 : sRight (c :: (m ++ y ++ ['\n'])) = sRight (c :: (m ++ y)) := by
    have := sRightAppendSpace (x := c :: (m ++ y)) (c := '\n') (by decide)
    simpa [List.append_assoc] using this
  have h2 : sRight (c :: (m ++ y)) = c :: (m ++ y) := by
    have : noTrailWs ((c :: m) ++ y) := noTrailWsAppend hy hyne
    have := sRightEqSelf this
    simpa using this
  simp only [List.append_assoc] at h1 ⊢
  rw [h1, h2]

/- Character-class lemmas for the decimal renderings. -/

theorem digitCharIsDigit (d : ℕ) : (digitChar d).isDigit = true := by
  unfold digitChar
  split <;> decide

theorem natToDigitsGoChars (fuel : ℕ) :
    ∀ n c, c ∈ natToDigitsGo fuel n → c.isDigit = true := by
  induction fuel with
  | zero => intro n c h; simp [natToDigitsGo] at h
  | succ f ih =>
    intro n c h
    rw [natToDigitsGo] at h
    by_cases hn : n = 0
    · simp [hn] at h
    · rw [if_neg hn] at h
      rcases List.mem_append.mp h with h | h
      · exact ih _ _ h
      · have : c = digitChar (n % 10) := by simpa using h
        rw [this]; exact digitCharIsDigit _
  
theorem natToDigitsChars {n : ℕ} {c : Char} (h : c ∈ natToDigits n) :
    c.isDigit = true := by
  unfold natToDigits at h
  by_cases hn : n = 0
  · rw [if_pos hn] at h
    have : c = '0' := by simpa using h
    rw [this]; decide
  · rw [if_neg hn] at h
    exact natToDigitsGoChars _ _ _ h

theorem natToDigitsNe (n : ℕ) : natToDigits n ≠ [] := by
  unfold natToDigits
  by_cases hn : n = 0
  · simp [hn]
  · rw [if_neg hn]
    rw [natToDigitsGo, if_neg hn]
    simp

theorem ratToPyStrChars {q : ℚ} {c : Char} (h : c ∈ (ratToPyStr q).data) :
    c.isDigit = true ∨ c = '-' ∨ c = '.' := by
  unfold ratToPyStr at h
  cases hf : findDenPow q.den with
  | some k =>
    rw [hf] at h
    simp only [mk_data_self] at h
    rcases List.mem_append.mp h with h | h
    · rcases List.mem_append.mp h with h | h
      · split at h
        · exact Or.inr (Or.inl (by simpa using h))
        · simp at h
      · exact Or.inl (natToDigitsChars h)
    · rcases List.mem_cons.mp h with h | h
      · exact Or.inr (Or.inr h)
      · split at h
        · have : c = '0' := by simpa using h
          exact Or.inl (by rw [this]; decide)
        · unfold padZeros at h
          rcases List.mem_append.mp h with h | h
          · have : c = '0' := List.eq_of_mem_replicate h
            exact Or.inl (by rw [this]; decide)
          · exact Or.inl (natToDigitsChars h)
  | none =>
    rw [hf] at h
    exact Or.inl (natToDigitsChars (by simpa using h))

theorem ratToPyStrNe (q : ℚ) : (ratToPyStr q).data ≠ [] := by
  unfold ratToPyStr
  cases hf : findDenPow q.den with
  | some k =>
    simp only [mk_data_self]
    intro hcontr
    rcases List.append_eq_nil.mp hcontr with ⟨h1, h2⟩
    rcases List.append_eq_nil.mp h1 with ⟨-, h3⟩
    exact natToDigitsNe _ h3
  | none => exact natToDigitsNe _

theorem pySpaceNotNum {c : Char} (h : isPySpace c = true) :
    c.isDigit = false ∧ c ≠ '-' ∧ c ≠ '.' := by
  simp only [isPySpace, Bool.or_eq_true, beq_iff_eq] at h
  rcases h with ((((h | h) | h) | h) | h) | h <;> subst h <;>
    exact ⟨by decide, by decide, by decide⟩

theorem numChNotSpace {c : Char} (h : c.isDigit = true ∨ c = '-' ∨ c = '.') :
    isPySpace c = false := by
  cases hsp : isPySpace c
  · rfl
  · obtain ⟨h1, h2, h3⟩ := pySpaceNotNum hsp
    rcases h with h | h | h
    · rw [h1] at h; exact absurd h (by simp)
    · exact absurd h h2
    · exact absurd h h3

theorem ratToPyStrNoNl {q : ℚ} : '\n' ∉ (ratToPyStr q).data := by
  intro h
  rcases ratToPyStrChars h with h | h | h <;> simp at h

theorem ratToPyStrNoPipe {q : ℚ} : '|' ∉ (ratToPyStr q).data := by
  intro h
  rcases ratToPyStrChars h with h | h | h <;> simp at h

theorem dropWhileAllNeg {p : Char → Bool} {l : List Char}
    (h : ∀ c ∈ l, p c = false) : l.dropWhile p = l := by
  induction l with
  | nil => simp
  | cons c r ih =>
    rw [List.dropWhile_cons_of_neg (by simp [h c (by simp)])]

theorem noTrailWsOfAllNonWs {l : List Char}
    (h : ∀ c ∈ l, isPySpace c = false) : noTrailWs l := by
  unfold noTrailWs
  exact dropWhileAllNeg (fun c hc => h c (List.mem_reverse.mp hc))

/- Clean feature names and the join/split round trips. -/

/-- A well-behaved feature name: non-empty, already stripped, and free of the
newline, pipe and `COORDS:` delimiters the payload format reserves. -/
def cleanName (n : String) : Prop :=
  n ≠ "" ∧ pyStrip n = n ∧ '\n' ∉ n.data ∧ '|' ∉ n.data ∧
    occurs "COORDS:".data n.data = false

instance : DecidablePred cleanName := fun n => by
  unfold cleanName
  infer_instance

theorem cleanNameDataNe {n : String} (h : cleanName n) : n.data ≠ [] := by
  intro hc
  exact h.1 (by cases n; simp at hc; simp [hc])

theorem cleanNameStrip {n : String} (h : cleanName n) : listStrip n.data = n.data := by
  have := h.2.1
  unfold pyStrip at this
  have := congrArg String.data this
  simpa using this

theorem cleanNameNoTrail {n : String} (h : cleanName n) : noTrailWs n.data :=
  (stripSelfParts (cleanNameStrip h)).2

theorem cleanNameHeadNoWs {n : String} (h : cleanName n) :
    ∃ c t, n.data = c :: t ∧ isPySpace c = false := by
  have hd := (stripSelfParts (cleanNameStrip h)).1
  cases hn : n.data with
  | nil => exact absurd hn (cleanNameDataNe h)
  | cons c t =>
    rw [hn] at hd
    exact ⟨c, t, rfl, dropWhileSelfHead hd⟩

theorem pyJoinDataCons (sep : String) (x y : String) (rest : List String) :
    (pyJoin sep (x :: y :: rest)).data =
      x.data ++ (sep.data ++ (pyJoin sep (y :: rest)).data) := rfl

theorem pyJoinNlNe {names : List String} (hne : names ≠ [])
    (hall : ∀ n ∈ names, n.data ≠ []) : (pyJoin "\n" names).data ≠ [] := by
  cases names with
  | nil => exact absurd rfl hne
  | cons n rest =>
    cases rest with
    | nil => exact hall n (by simp)
    | cons m r =>
      rw [pyJoinDataCons]
      intro hc
      exact hall n (by simp) (List.append_eq_nil.mp hc).1

/-- Splitting the newline-joined names followed by one more newline recovers
the names plus one empty final line. -/
theorem splitJoinNlTrail {names : List String} (hne : names ≠ [])
    (hall : ∀ n ∈ names, '\n' ∉ n.data) :
    listSplitOn ['\n'] ((pyJoin "\n" names).data ++ ['\n']) =
      names.map String.data ++ [[]] := by
  induction names with
  | nil => exact absurd rfl hne
  | cons n rest ih =>
    cases rest with
    | nil =>
      have h1 := splitOnCharBoundary (c := '\n') (x := n.data) (y := [])
        (hall n (by simp))
      simpa [pyJoin, listSplitOn] using h1
    | cons m r =>
      rw [pyJoinDataCons]
      have hstep : n.data ++ (['\n'] ++ (pyJoin "\n" (m :: r)).data) ++ ['\n'] =
          n.data ++ ('\n' :: ((pyJoin "\n" (m :: r)).data ++ ['\n'])) := by
        simp [List.append_assoc]
      rw [hstep, splitOnCharBoundary (hall n (by simp))]
      rw [ih (by simp) (fun a ha => hall a (by simp [ha]))]
      simp

/-- Splitting the newline-joined pieces (no trailing newline) recovers them. -/
theorem splitJoinNl {names : List String} (hne : names ≠ [])
    (hall : ∀ n ∈ names, '\n' ∉ n.data) :
    listSplitOn ['\n'] (pyJoin "\n" names).data = names.map String.data := by
  induction names with
  | nil => exact absurd rfl hne
  | cons n rest ih =>
    cases rest with
    | nil =>
      have hocc : occurs ['\n'] n.data = false := by
        cases h : occurs ['\n'] n.data
        · rfl
        · exact absurd ((occursSingleton _ _).mp h) (hall n (by simp))
      simpa [pyJoin] using splitOnNone (by simp) hocc
    | cons m r =>
      rw [pyJoinDataCons]
      have hstep : n.data ++ (['\n'] ++ (pyJoin "\n" (m :: r)).data) =
          n.data ++ ('\n' :: (pyJoin "\n" (m :: r)).data) := by simp
      rw [hstep, splitOnCharBoundary (hall n (by simp))]
      rw [ih (by simp) (fun a ha => hall a (by simp [ha]))]
      simp

theorem filterMapSome {α : Type} {l : List α} {f : α → Option α}
    (h : ∀ a ∈ l, f a = some a) : l.filterMap f = l := by
  induction l with
  | nil => simp
  | cons a rest ih =>
    rw [List.filterMap_cons, h a (by simp), ih (fun b hb => h b (by simp [hb]))]

/- Occurrence lemmas for the `COORDS:` marker. -/

theorem markerHeadC : "COORDS:".data = 'C' :: "OORDS:".data := by decide

theorem renderNoC {q : ℚ} : ∀ c ∈ (ratToPyStr q).data, c ≠ 'C' := by
  intro c h hc
  subst hc
  rcases ratToPyStrChars h with h | h | h <;> simp at h

theorem occursMarkerRender (q : ℚ) :
    occurs "COORDS:".data (ratToPyStr q).data = false := by
  rw [markerHeadC]
  exact occursFalseHead renderNoC

theorem occursMarkerJoin {names : List String}
    (hall : ∀ n ∈ names, occurs "COORDS:".data n.data = false) :
    occurs "COORDS:".data (pyJoin "\n" names).data = false := by
  induction names with
  | nil => decide
  | cons n rest ih =>
    cases rest with
    | nil => exact hall n (by simp)
    | cons m r =>
      rw [pyJoinDataCons]
      have hstep : n.data ++ ("\n".data ++ (pyJoin "\n" (m :: r)).data) =
          n.data ++ ('\n' :: (pyJoin "\n" (m :: r)).data) := by simp
      rw [hstep]
      exact occursSplitFalse (by decide) (hall n (by simp))
        (ih (fun a ha => hall a (by simp [ha])))

theorem coordLineData (n : String) (la lo : ℚ) :
    (coordLine n la lo).data =
      n.data ++ ('|' :: ((ratToPyStr la).data ++ ('|' :: (ratToPyStr lo).data))) := by
  simp [coordLine, catList, strCat]

theorem occursMarkerCline {n : String} (la lo : ℚ)
    (hn : occurs "COORDS:".data n.data = false) :
    occurs "COORDS:".data (coordLine n la lo).data = false := by
  rw [coordLineData]
  refine occursSplitFalse (by decide) hn ?_
  refine occursSplitFalse (by decide) (occursMarkerRender la) (occursMarkerRender lo)

theorem markerNoBorder :
    ∀ k, 0 < k → k < "COORDS:".data.length →
      ¬ "COORDS:".data.drop k = "COORDS:".data.take ("COORDS:".data.length - k) := by
  intro k h1 h2
  have h7 : ("COORDS:".data).length = 7 := by decide
  rw [h7] at h2
  interval_cases k <;> decide

/- Unfolding lemmas for the tools under a fixed environment. -/

/-- Whether a geocoding outcome is one of the three failure cases. -/
def geoFailed : GeoOutcome → Bool
  | .found _ _ _ => false
  | _ => true

theorem geoFailedSuccess {p : String} {g : GeoOutcome} (h : geoFailed g = true) :
    (get_coordinates p g).success = false := by
  cases g with
  | found d la lo => simp [geoFailed] at h
  | notFound => rfl
  | timeout => rfl
  | transportError e => rfl

theorem geoFoundSuccess {p : String} {disp : String} {gla glo : ℚ} :
    (get_coordinates p (.found disp gla glo)).success = true := rfl

theorem weatherGeoFail {p : String} {env : Env} (hf : geoFailed env.geo = true) :
    get_weather p env = dontKnowMsg p (get_coordinates p env.geo).error := by
  unfold get_weather
  rw [if_pos (geoFailedSuccess hf)]

theorem placesGeoFail {p : String} {env : Env} (hf : geoFailed env.geo = true) :
    get_tourist_places p env = dontKnowMsg p (get_coordinates p env.geo).error := by
  unfold get_tourist_places
  rw [if_pos (geoFailedSuccess hf)]

theorem weatherUnavailableEq {p : String} {env : Env} {disp : String} {gla glo : ℚ}
    {cur : CurrentWeather} (hg : env.geo = .found disp gla glo)
    (hw : env.weather = .ok cur) (ht : cur.temperature_2m = none) :
    get_weather p env =
      catList ["Weather data is currently unavailable for ", shortPlace disp, "."] := by
  unfold get_weather
  rw [hg, hw]
  rw [if_neg (by rw [geoFoundSuccess]; simp)]
  simp only [get_coordinates, optStr, ht]

theorem weatherSentenceEq {p : String} {env : Env} {disp : String} {gla glo : ℚ}
    {cur : CurrentWeather} {tstr : String} (hg : env.geo = .found disp gla glo)
    (hw : env.weather = .ok cur) (ht : cur.temperature_2m = some tstr) :
    get_weather p env =
      catList ["In ", shortPlace disp, " it", apoS, "s currently ", tstr,
               "°C with a chance of ", cur.precipitation_probability.getD "0",
               "% to rain."] := by
  unfold get_weather
  rw [hg, hw]
  rw [if_neg (by rw [geoFoundSuccess]; simp)]
  simp only [get_coordinates, optStr, ht]

theorem weatherTimeoutEq {p : String} {env : Env} {disp : String} {gla glo : ℚ}
    (hg : env.geo = .found disp gla glo) (hw : env.weather = .timeout) :
    get_weather p env = "Weather service timed out. Please try again." := by
  unfold get_weather
  rw [hg, hw]
  rw [if_neg (by rw [geoFoundSuccess]; simp)]

theorem placesTimeoutEq {p : String} {env : Env} {disp : String} {gla glo : ℚ}
    (hg : env.geo = .found disp gla glo) (hp : env.places = .timeout) :
    get_tourist_places p env = "Tourist places service timed out. Please try again." := by
  unfold get_tourist_places
  rw [hg, hp]
  rw [if_neg (by rw [geoFoundSuccess]; simp)]

theorem placesOkPayload {p : String} {env : Env} {disp : String} {gla glo : ℚ}
    {elems : List OsmElement} (hg : env.geo = .found disp gla glo)
    (hp : env.places = .ok elems) (hne : (collectPlaces elems).1 ≠ []) :
    get_tourist_places p env =
      catList ["In ", shortPlace disp, " these are the places you can go,\n",
               pyJoin "\n" (collectPlaces elems).1, "\nCOORDS:\n",
               pyJoin "\n" (collectPlaces elems).2] := by
  unfold get_tourist_places
  rw [hg, hp]
  rw [if_neg (by rw [geoFoundSuccess]; simp)]
  simp only [get_coordinates, optStr]
  rw [if_pos hne]

/- The collection loop: characterization lemmas. -/

/-- The stream of truthy feature names in element order (spec vocabulary). -/
def truthyNames (elems : List OsmElement) : List String :=
  elems.filterMap (fun e =>
    match e.name with
    | some n => if n = "" then none else some n
    | none => none)

/-- First-occurrence deduplication, excluding an initial `seen` set. -/
def dedupFirstGo (seen : List String) : List String → List String
  | [] => []
  | n :: rest =>
    if n ∈ seen then dedupFirstGo seen rest
    else n :: dedupFirstGo (seen ++ [n]) rest

/-- First-occurrence deduplication (spec vocabulary for §4.3). -/
def dedupFirst (l : List String) : List String := dedupFirstGo [] l

theorem collectNamesChar :
    ∀ (elems : List OsmElement) (p c : List String), p.length < 5 →
      (collectGo elems p c p).1 =
        p ++ (dedupFirstGo p (truthyNames elems)).take (5 - p.length) := by
  intro elems
  induction elems with
  | nil => intro p c hp; simp [collectGo, truthyNames, dedupFirstGo]
  | cons e rest ih =>
    intro p c hp
    simp only [collectGo]
    split
    next hn =>
      rw [show truthyNames (e :: rest) = truthyNames rest by
        simp [truthyNames, List.filterMap_cons, hn]]
      exact ih p c hp
    next n hn =>
      by_cases hne : n = ""
      · rw [if_neg (by simp [hne])]
        rw [show truthyNames (e :: rest) = truthyNames rest by
          simp [truthyNames, List.filterMap_cons, hn, hne]]
        exact ih p c hp
      · have htn : truthyNames (e :: rest) = n :: truthyNames rest := by
          simp [truthyNames, List.filterMap_cons, hn, hne]
        by_cases hmem : n ∈ p
        · rw [if_neg (by simp [hmem])]
          rw [htn]
          rw [show dedupFirstGo p (n :: truthyNames rest) =
            dedupFirstGo p (truthyNames rest) by rw [dedupFirstGo, if_pos hmem]]
          exact ih p c hp
        · rw [if_pos ⟨hne, hmem⟩]
          rw [htn]
          rw [show dedupFirstGo p (n :: truthyNames rest) =
            n :: dedupFirstGo (p ++ [n]) (truthyNames rest) by
              rw [dedupFirstGo, if_neg hmem]]
          have htake : (5 - p.length) = (5 - (p ++ [n]).length) + 1 := by
            simp only [List.length_append, List.length_cons, List.length_nil]
            omega
          rw [htake, List.take_succ_cons]
          by_cases hbreak : (p ++ [n]).length ≥ 5
          · rw [if_pos hbreak]
            have h50 : 5 - (p ++ [n]).length = 0 := by omega
            rw [h50]
            simp
          · rw [if_neg hbreak]
            have := ih (p ++ [n]) (collectCoords e n c)
              (by simp only [not_le] at hbreak; omega)
            rw [this]
            simp [List.append_assoc]

theorem collectMono :
    ∀ (elems : List OsmElement) (p c s : List String),
      ∃ d1 d2, collectGo elems p c s = (p ++ d1, c ++ d2) := by
  intro elems
  induction elems with
  | nil => intro p c s; exact ⟨[], [], by simp [collectGo]⟩
  | cons e rest ih =>
    intro p c s
    simp only [collectGo]
    split
    next hn => exact ih p c s
    next n hn =>
      by_cases hcond : n ≠ "" ∧ n ∉ s
      · rw [if_pos hcond]
        have hcc : ∃ dc, collectCoords e n c = c ++ dc := by
          unfold collectCoords
          split
          next la lo heq =>
            by_cases hz : la ≠ 0 ∧ lo ≠ 0
            · exact ⟨[coordLine n la lo], by rw [if_pos hz]⟩
            · exact ⟨[], by rw [if_neg hz]; simp⟩
          next => exact ⟨[], by simp⟩
        obtain ⟨dc, hdc⟩ := hcc
        by_cases hbreak : (p ++ [n]).length ≥ 5
        · rw [if_pos hbreak]
          exact ⟨[n], dc, by rw [hdc]⟩
        · rw [if_neg hbreak]
          obtain ⟨d1, d2, hd⟩ := ih (p ++ [n]) (collectCoords e n c) (s ++ [n])
          refine ⟨[n] ++ d1, dc ++ d2, ?_⟩
          rw [hd, hdc]
          simp [List.append_assoc]
      · rw [if_neg hcond]
        exact ih p c s

theorem collectGoConsNone {e : OsmElement} {rest : List OsmElement}
    {p c s : List String} (hn : e.name = none) :
    collectGo (e :: rest) p c s = collectGo rest p c s := by
  rw [collectGo, hn]

theorem collectGoConsName {e : OsmElement} {rest : List OsmElement}
    {p c s : List String} {n : String} (hn : e.name = some n) :
    collectGo (e :: rest) p c s =
      if n ≠ "" ∧ n ∉ s then
        if (p ++ [n]).length ≥ 5 then (p ++ [n], collectCoords e n c)
        else collectGo rest (p ++ [n]) (collectCoords e n c) (s ++ [n])
      else collectGo rest p c s := by
  rw [collectGo, hn]

theorem collectAppend :
    ∀ (xs ys : List OsmElement) (p c : List String),
      (collectGo xs p c p).1.length < 5 →
      collectGo (xs ++ ys) p c p =
        collectGo ys (collectGo xs p c p).1 (collectGo xs p c p).2 (collectGo xs p c p).1 := by
  intro xs
  induction xs with
  | nil => intro ys p c hlt; simp [collectGo]
  | cons e rest ih =>
    intro ys p c hlt
    cases hn : e.name with
    | none =>
      rw [collectGoConsNone hn] at hlt ⊢
      rw [List.cons_append, collectGoConsNone hn]
      exact ih ys p c hlt
    | some n =>
      by_cases hcond : n ≠ "" ∧ n ∉ p
      · by_cases hbreak : (p ++ [n]).length ≥ 5
        · have hstep : collectGo (e :: rest) p c p = (p ++ [n], collectCoords e n c) := by
            rw [collectGoConsName hn, if_pos hcond, if_pos hbreak]
          rw [hstep] at hlt
          simp only [List.length_append, List.length_cons, List.length_nil] at hlt hbreak
          omega
        · have hstep : collectGo (e :: rest) p c p =
              collectGo rest (p ++ [n]) (collectCoords e n c) (p ++ [n]) := by
            rw [collectGoConsName hn, if_pos hcond, if_neg hbreak]
          rw [hstep] at hlt ⊢
          rw [List.cons_append, collectGoConsName hn, if_pos hcond, if_neg hbreak]
          exact ih ys (p ++ [n]) (collectCoords e n c) hlt
      · have hstep : collectGo (e :: rest) p c p = collectGo rest p c p := by
          rw [collectGoConsName hn, if_neg hcond]
        rw [hstep] at hlt ⊢
        rw [List.cons_append, collectGoConsName hn, if_neg hcond]
        exact ih ys p c hlt

/-- The rendering of one collected coordinate record. -/
def mkCoordLine (t : String × ℚ × ℚ) : String := coordLine t.1 t.2.1 t.2.2

theorem collectTups :
    ∀ (elems : List OsmElement) (p c s : List String) (tups : List (String × ℚ × ℚ)),
      c = tups.map mkCoordLine →
      List.Sublist (tups.map Prod.fst) p →
      ∃ tups2 : List (String × ℚ × ℚ),
        (collectGo elems p c s).2 = tups2.map mkCoordLine ∧
        List.Sublist (tups2.map Prod.fst) (collectGo elems p c s).1 ∧
        ∀ t ∈ tups2, t ∈ tups ∨
          (t.1 ∉ s ∧ t.1 ≠ "" ∧ ∃ e ∈ elems, e.name = some t.1) := by
  intro elems
  induction elems with
  | nil =>
    intro p c s tups hc hsub
    exact ⟨tups, by simpa [collectGo] using hc, by simpa [collectGo] using hsub,
      fun t ht => Or.inl ht⟩
  | cons e rest ih =>
    intro p c s tups hc hsub
    cases hn : e.name with
    | none =>
      rw [collectGoConsNone hn]
      obtain ⟨tups2, h1, h2, h3⟩ := ih p c s tups hc hsub
      refine ⟨tups2, h1, h2, fun t ht => (h3 t ht).imp id ?_⟩
      rintro ⟨hs, hne, e', he', hname⟩
      exact ⟨hs, hne, e', by simp [he'], hname⟩
    | some n =>
      by_cases hcond : n ≠ "" ∧ n ∉ s
      · by_cases hz : ∃ la lo, elementResolved e = (some la, some lo) ∧ la ≠ 0 ∧ lo ≠ 0
        · obtain ⟨la, lo, heq, hz2⟩ := hz
          have hcc : collectCoords e n c = c ++ [coordLine n la lo] := by
            simp [collectCoords, heq, hz2]
          have hc2 : collectCoords e n c = (tups ++ [(n, la, lo)]).map mkCoordLine := by
            rw [hcc, hc, List.map_append]
            rfl
          have hsub2 : List.Sublist ((tups ++ [(n, la, lo)]).map Prod.fst) (p ++ [n]) := by
            rw [List.map_append]
            exact List.Sublist.append hsub (by simp)
          by_cases hbreak : (p ++ [n]).length ≥ 5
          · rw [collectGoConsName hn, if_pos hcond, if_pos hbreak]
            refine ⟨tups ++ [(n, la, lo)], hc2, hsub2, fun t ht => ?_⟩
            rcases List.mem_append.mp ht with ht | ht
            · exact Or.inl ht
            · have hteq : t = (n, la, lo) := by simpa using ht
              subst hteq
              exact Or.inr ⟨hcond.2, hcond.1, e, by simp, hn⟩
          · rw [collectGoConsName hn, if_pos hcond, if_neg hbreak]
            obtain ⟨tups2, h1, h2, h3⟩ :=
              ih (p ++ [n]) (collectCoords e n c) (s ++ [n]) (tups ++ [(n, la, lo)])
                hc2 hsub2
            refine ⟨tups2, h1, h2, fun t ht => ?_⟩
            rcases h3 t ht with ht2 | ⟨hs2, hne2, e', he', hname⟩
            · rcases List.mem_append.mp ht2 with ht3 | ht3
              · exact Or.inl ht3
              · have hteq : t = (n, la, lo) := by simpa using ht3
                subst hteq
                exact Or.inr ⟨hcond.2, hcond.1, e, by simp, hn⟩
            · exact Or.inr ⟨fun hmem => hs2 (by simp [hmem]), hne2, e', by simp [he'], hname⟩
        · have hcc : collectCoords e n c = c := by
            unfold collectCoords
            split
            next la lo heq =>
              rw [if_neg (fun hcontr => hz ⟨la, lo, heq, hcontr⟩)]
            next => rfl
          have hsub2 : List.Sublist (tups.map Prod.fst) (p ++ [n]) :=
            hsub.trans (List.sublist_append_left p [n])
          by_cases hbreak : (p ++ [n]).length ≥ 5
          · rw [collectGoConsName hn, if_pos hcond, if_pos hbreak]
            refine ⟨tups, by simpa [hcc] using hc, hsub2, fun t ht => Or.inl ht⟩
          · rw [collectGoConsName hn, if_pos hcond, if_neg hbreak]
            obtain ⟨tups2, h1, h2, h3⟩ :=
              ih (p ++ [n]) (collectCoords e n c) (s ++ [n]) tups (by rw [hcc, hc]) hsub2
            refine ⟨tups2, h1, h2, fun t ht => ?_⟩
            rcases h3 t ht with ht2 | ⟨hs2, hne2, e', he', hname⟩
            · exact Or.inl ht2
            · exact Or.inr ⟨fun hmem => hs2 (by simp [hmem]), hne2, e', by simp [he'], hname⟩
      · rw [collectGoConsName hn, if_neg hcond]
        obtain ⟨tups2, h1, h2, h3⟩ := ih p c s tups hc hsub
        refine ⟨tups2, h1, h2, fun t ht => (h3 t ht).imp id ?_⟩
        rintro ⟨hs, hne, e', he', hname⟩
        exact ⟨hs, hne, e', by simp [he'], hname⟩

theorem pipePrefixEq :
    ∀ (m n R : List Char), '|' ∉ m → '|' ∉ n →
      startsWith (m ++ ('|' :: R)) (n ++ ['|']) = true → m = n := by
  intro m
  induction m with
  | nil =>
    intro n R hm hn hsw
    cases n with
    | nil => rfl
    | cons d ds =>
      simp only [List.nil_append, List.cons_append, startsWith, Bool.and_eq_true,
        beq_iff_eq] at hsw
      exact absurd hsw.1.symm (fun h => hn (by simp [h]))
  | cons a m' ih =>
    intro n R hm hn hsw
    cases n with
    | nil =>
      simp only [List.cons_append, List.nil_append, startsWith, Bool.and_eq_true,
        beq_iff_eq] at hsw
      exact absurd hsw.1 (fun h => hm (by simp [h]))
    | cons d ds =>
      simp only [List.cons_append, startsWith, Bool.and_eq_true, beq_iff_eq] at hsw
      have h1 : m' = ds :=
        ih ds R (fun h => hm (by simp [h])) (fun h => hn (by simp [h])) hsw.2
      rw [hsw.1, h1]

theorem clineNotPrefix {m n : String} {la lo : ℚ} (hm : '|' ∉ m.data)
    (hn : '|' ∉ n.data) (hne : m ≠ n) :
    startsWith (coordLine m la lo).data (n.data ++ ['|']) = false := by
  cases hsw : startsWith (coordLine m la lo).data (n.data ++ ['|'])
  · rfl
  · rw [coordLineData] at hsw
    have := pipePrefixEq m.data n.data ((ratToPyStr la).data ++ ('|' :: (ratToPyStr lo).data))
      hm hn hsw
    exact absurd (by
      have h2 := congrArg String.mk this
      simpa [mk_data_self] using h2) hne

/-- Shared skeleton for the two skipped-coordinate claims: a truthy, unseen,
pipe-free name `n` carried by an element whose resolved coordinates fail the
`if lat and lon:` guard is kept in the name list but contributes no `COORDS:`
line, and no other element's line can start with `n` followed by a pipe. -/
theorem collectSkipCoord (pre post : List OsmElement) (e : OsmElement) (n : String)
    (hname : e.name = some n) (hn : n ≠ "")
    (hskip : ∀ la lo, elementResolved e = (some la, some lo) → la = 0 ∨ lo = 0)
    (hlen : (collectPlaces pre).1.length < 5)
    (hnot : n ∉ (collectPlaces pre).1)
    (hnp : '|' ∉ n.data)
    (hcleanOthers : ∀ e2 ∈ pre ++ e :: post, ∀ m, e2.name = some m → '|' ∉ m.data) :
    n ∈ (collectPlaces (pre ++ e :: post)).1 ∧
    ∀ line ∈ (collectPlaces (pre ++ e :: post)).2,
      startsWith line.data (n.data ++ ['|']) = false := by
  unfold collectPlaces at hlen hnot ⊢
  rw [collectAppend pre (e :: post) [] [] hlen]
  obtain ⟨tups, htc, htsub, htsrc⟩ :=
    collectTups pre [] [] [] [] (by simp) (by simp)
  have htupsPipe : ∀ t ∈ tups, '|' ∉ (t : String × ℚ × ℚ).1.data := by
    intro t ht
    rcases htsrc t ht with h | ⟨-, -, e', he', hname'⟩
    · simp at h
    · exact hcleanOthers e' (by simp [he']) t.1 hname'
  have htupsP : ∀ t ∈ tups, (t : String × ℚ × ℚ).1 ∈ (collectGo pre [] [] []).1 := by
    intro t ht
    exact htsub.mem (List.mem_map_of_mem Prod.fst ht)
  have hcc : collectCoords e n (collectGo pre [] [] []).2 = (collectGo pre [] [] []).2 := by
    unfold collectCoords
    split
    next la lo heq =>
      rw [if_neg (by
        rintro ⟨hla, hlo⟩
        rcases hskip la lo heq with h | h
        · exact hla h
        · exact hlo h)]
    next => rfl
  rw [collectGoConsName hname, if_pos ⟨hn, hnot⟩, hcc]
  by_cases hbreak : ((collectGo pre [] [] []).1 ++ [n]).length ≥ 5
  · rw [if_pos hbreak]
    refine ⟨by simp, fun line hline => ?_⟩
    simp only at hline
    rw [htc] at hline
    obtain ⟨t, ht, rfl⟩ := List.mem_map.mp hline
    refine clineNotPrefix (htupsPipe t ht) hnp ?_
    intro hcontr
    exact hnot (hcontr ▸ htupsP t ht)
  · rw [if_neg hbreak]
    have hsubP : List.Sublist (tups.map Prod.fst) ((collectGo pre [] [] []).1 ++ [n]) :=
      htsub.trans (List.sublist_append_left _ [n])
    obtain ⟨tups2, h1, h2, h3⟩ :=
      collectTups post ((collectGo pre [] [] []).1 ++ [n]) (collectGo pre [] [] []).2
        ((collectGo pre [] [] []).1 ++ [n]) tups htc hsubP
    constructor
    · obtain ⟨d1, d2, hd⟩ :=
        collectMono post ((collectGo pre [] [] []).1 ++ [n]) (collectGo pre [] [] []).2
          ((collectGo pre [] [] []).1 ++ [n])
      rw [hd]
      simp
    · intro line hline
      rw [h1] at hline
      obtain ⟨t, ht, rfl⟩ := List.mem_map.mp hline
      rcases h3 t ht with ht2 | ⟨hs2, -, e', he', hname'⟩
      · refine clineNotPrefix (htupsPipe t ht2) hnp ?_
        intro hcontr
        exact hnot (hcontr ▸ htupsP t ht2)
      · refine clineNotPrefix (hcleanOthers e' (by simp [he']) t.1 hname') hnp ?_
        intro hcontr
        exact hs2 (by simp [hcontr])

/- Per-line lemmas for the `COORDS:` block. -/

theorem ratToPyStrNoTrail (q : ℚ) : noTrailWs (ratToPyStr q).data :=
  noTrailWsOfAllNonWs (fun c hc => numChNotSpace (ratToPyStrChars hc))

theorem clineNoNl {n : String} {la lo : ℚ} (hn : cleanName n) :
    '\n' ∉ (coordLine n la lo).data := by
  rw [coordLineData]
  intro h
  rcases List.mem_append.mp h with h | h
  · exact hn.2.2.1 h
  · rcases List.mem_cons.mp h with h | h
    · simp at h
    · rcases List.mem_append.mp h with h | h
      · exact ratToPyStrNoNl h
      · rcases List.mem_cons.mp h with h | h
        · simp at h
        · exact ratToPyStrNoNl h

theorem clineNoTrail {n : String} {la lo : ℚ} : noTrailWs (coordLine n la lo).data := by
  rw [coordLineData]
  have hshape : n.data ++ ('|' :: ((ratToPyStr la).data ++ ('|' :: (ratToPyStr lo).data))) =
      (n.data ++ ('|' :: ((ratToPyStr la).data ++ ['|']))) ++ (ratToPyStr lo).data := by
    simp [List.append_assoc]
  rw [hshape]
  exact noTrailWsAppend (ratToPyStrNoTrail lo) (ratToPyStrNe lo)

theorem clineHead {n : String} {la lo : ℚ} (hn : cleanName n) :
    ∃ c t, (coordLine n la lo).data = c :: t ∧ isPySpace c = false := by
  obtain ⟨c, t, hct, hc⟩ := cleanNameHeadNoWs hn
  rw [coordLineData, hct]
  exact ⟨c, t ++ ('|' :: ((ratToPyStr la).data ++ ('|' :: (ratToPyStr lo).data))), by simp, hc⟩

theorem occursPipeCline {n : String} {la lo : ℚ} :
    occurs ['|'] (coordLine n la lo).data = true := by
  rw [coordLineData]
  exact occursAppR (occursOfSw (by simp [startsWith])) n.data

theorem splitPipeCline {n : String} {la lo : ℚ} (hn : cleanName n) :
    listSplitOn ['|'] (coordLine n la lo).data =
      [n.data, (ratToPyStr la).data, (ratToPyStr lo).data] := by
  rw [coordLineData]
  rw [splitOnCharBoundary hn.2.2.2.1]
  rw [splitOnCharBoundary ratToPyStrNoPipe]
  rw [splitOnNone (by simp) (by
    cases h : occurs ['|'] (ratToPyStr lo).data
    · rfl
    · exact absurd ((occursSingleton _ _).mp h) ratToPyStrNoPipe)]

theorem parseTripleShape (nm la lo : String) :
    parseTriple nm la lo = none ∨
    ∃ qa qb, parseTriple nm la lo = some ⟨pyStrip nm, qa, qb⟩ := by
  unfold parseTriple
  cases hfa : floatParse la with
  | none => exact Or.inl rfl
  | some qa =>
    cases hfb : floatParse lo with
    | none => exact Or.inl rfl
    | some qb => exact Or.inr ⟨qa, qb, rfl⟩

theorem parseCoordLineShape {n : String} {la lo : ℚ} (hn : cleanName n) :
    parseCoordLine (coordLine n la lo) = none ∨
    ∃ qa qb, parseCoordLine (coordLine n la lo) = some ⟨n, qa, qb⟩ := by
  have hsplit : pySplitOn (coordLine n la lo) "|" =
      [n, String.mk (ratToPyStr la).data, String.mk (ratToPyStr lo).data] := by
    unfold pySplitOn
    rw [show "|".data = ['|'] by decide]
    rw [splitPipeCline hn]
    simp [mk_data_self]
  have hred : parseCoordLine (coordLine n la lo) =
      parseTriple n (String.mk (ratToPyStr la).data) (String.mk (ratToPyStr lo).data) := by
    unfold parseCoordLine
    rw [if_pos occursPipeCline, hsplit]
  rw [hred]
  rcases parseTripleShape n (String.mk (ratToPyStr la).data)
      (String.mk (ratToPyStr lo).data) with h | ⟨qa, qb, h⟩
  · exact Or.inl h
  · refine Or.inr ⟨qa, qb, ?_⟩
    rw [h, show pyStrip n = n from hn.2.1]

theorem joinNoTrail {pieces : List String}
    (h : ∀ s ∈ pieces, noTrailWs s.data ∧ s.data ≠ []) (hne : pieces ≠ []) :
    noTrailWs (pyJoin "\n" pieces).data := by
  induction pieces with
  | nil => exact absurd rfl hne
  | cons x rest ih =>
    cases rest with
    | nil => exact (h x (by simp)).1
    | cons y r =>
      rw [pyJoinDataCons]
      have hJ := ih (fun s hs => h s (by simp [hs])) (by simp)
      have hJne : (pyJoin "\n" (y :: r)).data ≠ [] :=
        pyJoinNlNe (by simp) (fun s hs => (h s (by simp [hs])).2)
      have hshape : x.data ++ ("\n".data ++ (pyJoin "\n" (y :: r)).data) =
          (x.data ++ "\n".data) ++ (pyJoin "\n" (y :: r)).data := by
        simp [List.append_assoc]
      rw [hshape]
      exact noTrailWsAppend hJ hJne

theorem joinHeadNoWs {pieces : List String}
    (h : ∀ s ∈ pieces, ∃ c t, s.data = c :: t ∧ isPySpace c = false)
    (hne : pieces ≠ []) :
    ∃ c t, (pyJoin "\n" pieces).data = c :: t ∧ isPySpace c = false := by
  cases pieces with
  | nil => exact absurd rfl hne
  | cons x rest =>
    obtain ⟨c, t, hct, hc⟩ := h x (by simp)
    cases rest with
    | nil => exact ⟨c, t, hct, hc⟩
    | cons y r =>
      rw [pyJoinDataCons, hct]
      exact ⟨c, t ++ ("\n".data ++ (pyJoin "\n" (y :: r)).data), by simp, hc⟩

theorem collectNamesFromElems :
    ∀ (elems : List OsmElement) (p c s : List String) (n : String),
      n ∈ (collectGo elems p c s).1 →
      n ∈ p ∨ (n ≠ "" ∧ ∃ e ∈ elems, e.name = some n) := by
  intro elems
  induction elems with
  | nil => intro p c s n hn; exact Or.inl (by simpa [collectGo] using hn)
  | cons e rest ih =>
    intro p c s n hn
    cases hname : e.name with
    | none =>
      rw [collectGoConsNone hname] at hn
      rcases ih p c s n hn with h | ⟨h1, e', he', h2⟩
      · exact Or.inl h
      · exact Or.inr ⟨h1, e', by simp [he'], h2⟩
    | some n0 =>
      by_cases hcond : n0 ≠ "" ∧ n0 ∉ s
      · by_cases hbreak : (p ++ [n0]).length ≥ 5
        · rw [collectGoConsName hname, if_pos hcond, if_pos hbreak] at hn
          simp only at hn
          rcases List.mem_append.mp hn with h | h
          · exact Or.inl h
          · have : n = n0 := by simpa using h
            subst this
            exact Or.inr ⟨hcond.1, e, by simp, hname⟩
        · rw [collectGoConsName hname, if_pos hcond, if_neg hbreak] at hn
          rcases ih _ _ _ n hn with h | ⟨h1, e', he', h2⟩
          · rcases List.mem_append.mp h with h | h
            · exact Or.inl h
            · have : n = n0 := by simpa using h
              subst this
              exact Or.inr ⟨hcond.1, e, by simp, hname⟩
          · exact Or.inr ⟨h1, e', by simp [he'], h2⟩
      · rw [collectGoConsName hname, if_neg hcond] at hn
        rcases ih p c s n hn with h | ⟨h1, e', he', h2⟩
        · exact Or.inl h
        · exact Or.inr ⟨h1, e', by simp [he'], h2⟩

theorem payloadData {p : String} {env : Env} {disp : String} {gla glo : ℚ}
    {elems : List OsmElement} (hg : env.geo = .found disp gla glo)
    (hp : env.places = .ok elems) (hne : (collectPlaces elems).1 ≠ []) :
    (get_tourist_places p env).data =
      ("In ".data ++ ((shortPlace disp).data ++
        (" these are the places you can go,".data ++
          ('\n' :: ((pyJoin "\n" (collectPlaces elems).1).data ++ ['\n']))))) ++
      ("COORDS:".data ++ ('\n' :: (pyJoin "\n" (collectPlaces elems).2).data)) := by
  rw [placesOkPayload hg hp hne]
  simp only [catList, List.foldr, strCat, mk_data_self, List.append_nil]
  simp [List.append_assoc]

theorem collectCleanNames {elems : List OsmElement}
    (hclean : ∀ e ∈ elems, ∀ n, e.name = some n → n ≠ "" → cleanName n) :
    ∀ n ∈ (collectPlaces elems).1, cleanName n := by
  intro n hn
  rcases collectNamesFromElems elems [] [] [] n hn with h | ⟨h1, e, he, h2⟩
  · simp at h
  · exact hclean e he n h2 h1

theorem payloadSplit {p : String} {env : Env} {disp : String} {gla glo : ℚ}
    {elems : List OsmElement} (hg : env.geo = .found disp gla glo)
    (hp : env.places = .ok elems) (hne : (collectPlaces elems).1 ≠ [])
    (hclean : ∀ e ∈ elems, ∀ n, e.name = some n → n ≠ "" → cleanName n)
    (hpdnl : '\n' ∉ (shortPlace disp).data)
    (hpdm : occurs "COORDS:".data (shortPlace disp).data = false)
    (hcl : ∀ cl ∈ (collectPlaces elems).2, occurs "COORDS:".data cl.data = false) :
    pySplitOn (get_tourist_places p env) "COORDS:" =
      [String.mk ("In ".data ++ ((shortPlace disp).data ++
        (" these are the places you can go,".data ++
          ('\n' :: ((pyJoin "\n" (collectPlaces elems).1).data ++ ['\n']))))),
       String.mk ('\n' :: (pyJoin "\n" (collectPlaces elems).2).data)] := by
  have hnames := collectCleanNames hclean
  unfold pySplitOn
  rw [payloadData hg hp hne]
  have hA : occurs "COORDS:".data
      ("In ".data ++ ((shortPlace disp).data ++
        (" these are the places you can go,".data ++
          ('\n' :: ((pyJoin "\n" (collectPlaces elems).1).data ++ ['\n']))))) = false := by
    have hx : occurs "COORDS:".data
        ("In".data ++ (' ' :: ((shortPlace disp).data ++
          (' ' :: "these are the places you can go,".data)))) = false := by
      refine occursSplitFalse (by decide) (by decide) ?_
      exact occursSplitFalse (by decide) hpdm (by decide)
    have hy : occurs "COORDS:".data
        ((pyJoin "\n" (collectPlaces elems).1).data ++ ('\n' :: [])) = false := by
      refine occursSplitFalse (by decide) ?_ (by decide)
      exact occursMarkerJoin (fun n hn => (hnames n hn).2.2.2.2)
    have hshape : "In ".data ++ ((shortPlace disp).data ++
        (" these are the places you can go,".data ++
          ('\n' :: ((pyJoin "\n" (collectPlaces elems).1).data ++ ['\n'])))) =
        ("In".data ++ (' ' :: ((shortPlace disp).data ++
          (' ' :: "these are the places you can go,".data)))) ++
        ('\n' :: ((pyJoin "\n" (collectPlaces elems).1).data ++ ('\n' :: []))) := by
      simp [List.append_assoc]
    rw [hshape]
    exact occursSplitFalse (by decide) hx hy
  have hB : occurs "COORDS:".data
      ('\n' :: (pyJoin "\n" (collectPlaces elems).2).data) = false := by
    have : occurs "COORDS:".data
        ([] ++ ('\n' :: (pyJoin "\n" (collectPlaces elems).2).data)) = false :=
      occursSplitFalse (by decide) (by decide) (occursMarkerJoin hcl)
    simpa using this
  rw [splitOnMarker (by decide) hA markerNoBorder]
  rw [splitOnNone (by decide) hB]
  simp

theorem mapMkData (l : List String) : (l.map String.data).map String.mk = l := by
  induction l with
  | nil => rfl
  | cons s rest ih => simp only [List.map_cons, mk_data_self, ih]

theorem attractionsFilter {names : List String} (h : ∀ n ∈ names, cleanName n) :
    (names ++ [""]).filterMap
      (fun l => if pyStrip l ≠ "" then some (pyStrip l) else none) = names := by
  rw [List.filterMap_append]
  have h1 : names.filterMap
      (fun l => if pyStrip l ≠ "" then some (pyStrip l) else none) = names := by
    refine filterMapSome (fun n hn => ?_)
    rw [(h n hn).2.1, if_pos (h n hn).1]
  have h2 : [""].filterMap
      (fun l => if pyStrip l ≠ "" then some (pyStrip l) else none) = ([] : List String) := by
    simp [List.filterMap_cons, pyStrip, listStrip]
  rw [h1, h2, List.append_nil]

theorem parsedNamesSub :
    ∀ tups : List (String × ℚ × ℚ), (∀ t ∈ tups, cleanName t.1) →
      List.Sublist (((tups.map mkCoordLine).filterMap parseCoordLine).map
        AttractionWithCoords.name) (tups.map Prod.fst) := by
  intro tups
  induction tups with
  | nil => intro h; simp
  | cons t rest ih =>
    intro h
    simp only [List.map_cons, List.filterMap_cons]
    rcases @parseCoordLineShape t.1 t.2.1 t.2.2 (h t (by simp)) with hc | ⟨qa, qb, hc⟩
    · rw [show parseCoordLine (mkCoordLine t) = none from hc]
      exact (ih (fun u hu => h u (by simp [hu]))).cons t.1
    · rw [show parseCoordLine (mkCoordLine t) = some ⟨t.1, qa, qb⟩ from hc]
      simp only [List.map_cons]
      exact (ih (fun u hu => h u (by simp [hu]))).cons₂ t.1

theorem parseBlockSub {tups : List (String × ℚ × ℚ)}
    (hts : ∀ t ∈ tups, cleanName t.1) :
    List.Sublist
      ((parseCoordsBlock (String.mk
        ('\n' :: (pyJoin "\n" (tups.map mkCoordLine)).data))).map
          AttractionWithCoords.name)
      (tups.map Prod.fst) := by
  cases tups with
  | nil =>
    show List.Sublist ((parseCoordsBlock (String.mk ['\n'])).map _) []
    have : parseCoordsBlock (String.mk ['\n']) = [] := by
      unfold parseCoordsBlock
      rw [show pyStrip (String.mk ['\n']) = "" by decide]
      rw [show pySplitOn "" "\n" = [""] by decide]
      simp [List.filterMap_cons, parseCoordLine, occurs]
    rw [this]
    simp
  | cons t rest =>
    have hclNe : ∀ cl ∈ (t :: rest).map mkCoordLine, cl.data ≠ [] := by
      intro cl hcl
      obtain ⟨u, hu, rfl⟩ := List.mem_map.mp hcl
      rw [show (mkCoordLine u).data = (coordLine u.1 u.2.1 u.2.2).data from rfl]
      rw [coordLineData]
      simp
    have hclNoNl : ∀ cl ∈ (t :: rest).map mkCoordLine, '\n' ∉ cl.data := by
      intro cl hcl
      obtain ⟨u, hu, rfl⟩ := List.mem_map.mp hcl
      exact clineNoNl (hts u hu)
    have hclNoTrail : ∀ cl ∈ (t :: rest).map mkCoordLine, noTrailWs cl.data ∧ cl.data ≠ [] := by
      intro cl hcl
      obtain ⟨u, hu, rfl⟩ := List.mem_map.mp hcl
      exact ⟨clineNoTrail, hclNe _ hcl⟩
    have hhead := @joinHeadNoWs ((t :: rest).map mkCoordLine)
      (fun cl hcl => by
        obtain ⟨u, hu, rfl⟩ := List.mem_map.mp hcl
        exact clineHead (hts u hu))
      (by simp)
    obtain ⟨c0, t0, hct, hc0⟩ := hhead
    have hnt := joinNoTrail hclNoTrail (by simp)
    have hstrip : pyStrip (String.mk
        ('\n' :: (pyJoin "\n" ((t :: rest).map mkCoordLine)).data)) =
        String.mk (pyJoin "\n" ((t :: rest).map mkCoordLine)).data := by
      unfold pyStrip
      simp only [mk_data_self]
      rw [listStripAsSRight]
      rw [List.dropWhile_cons_of_pos (by decide)]
      rw [hct, List.dropWhile_cons_of_neg (by simp [hc0]), ← hct]
      rw [sRightEqSelf hnt]
    unfold parseCoordsBlock
    rw [hstrip]
    have hsplit : pySplitOn (String.mk (pyJoin "\n" ((t :: rest).map mkCoordLine)).data) "\n" =
        (t :: rest).map mkCoordLine := by
      unfold pySplitOn
      simp only [mk_data_self]
      rw [splitJoinNl (by simp) hclNoNl]
      exact mapMkData _
    rw [hsplit]
    exact parsedNamesSub (t :: rest) hts

theorem collectLen (elems : List OsmElement) : (collectPlaces elems).1.length ≤ 5 := by
  unfold collectPlaces
  rw [collectNamesChar elems [] [] (by decide)]
  simp only [List.nil_append, List.length_take]
  omega

/-- `placesStep` when the payload carries the success sentinel and splits into
exactly a main text and a coordinate block. -/
theorem placesStepSplitEq (r : TourismResponse) (parts : List String) (p : String)
    (env : Env) (A B : String)
    (hsent : pyContains (get_tourist_places p env) placesSentinel = true)
    (hsplit : pySplitOn (get_tourist_places p env) "COORDS:" = [A, B]) :
    placesStep r parts p env =
      { r with
        attractions := some (((pySplitOn A "\n").drop 1).filterMap
          (fun l => if pyStrip l ≠ "" then some (pyStrip l) else none)),
        attractions_with_coords := some (parseCoordsBlock B),
        message := composeMessage (parts ++ [pyStrip A]) p } := by
  simp only [placesStep]
  rw [if_pos hsent, hsplit]
  rfl

/-- The places step on a clean payload: the attraction names become
`attractions`, the parsed coordinate records become `attractions_with_coords`
with names a sublist of the attraction names, and the stripped main text is
appended to the message parts. -/
theorem placesStepClean {p : String} {env : Env} {disp : String} {gla glo : ℚ}
    {elems : List OsmElement} (r : TourismResponse) (parts : List String)
    (hg : env.geo = .found disp gla glo)
    (hp : env.places = .ok elems)
    (hclean : ∀ e ∈ elems, ∀ n, e.name = some n → n ≠ "" → cleanName n)
    (hne : (collectPlaces elems).1 ≠ [])
    (hpdnl : '\n' ∉ (shortPlace disp).data)
    (hpdm : occurs "COORDS:".data (shortPlace disp).data = false) :
    ∃ (parsed : List AttractionWithCoords) (mt : String),
      placesStep r parts p env =
        { r with attractions := some (collectPlaces elems).1,
                 attractions_with_coords := some parsed,
                 message := composeMessage (parts ++ [mt]) p } ∧
      List.Sublist (parsed.map AttractionWithCoords.name) (collectPlaces elems).1 := by
  have hnames := collectCleanNames hclean
  obtain ⟨tups, htc, htsub, htsrc⟩ := collectTups elems [] [] [] [] (by simp) (by simp)
  have htc2 : (collectPlaces elems).2 = tups.map mkCoordLine := htc
  have htsub2 : List.Sublist (tups.map Prod.fst) (collectPlaces elems).1 := htsub
  have htclean : ∀ t ∈ tups, cleanName (t : String × ℚ × ℚ).1 := by
    intro t ht
    rcases htsrc t ht with h | ⟨-, hne2, e, he, hname⟩
    · simp at h
    · exact hclean e he t.1 hname hne2
  have hcl : ∀ cl ∈ (collectPlaces elems).2, occurs "COORDS:".data cl.data = false := by
    intro cl hclmem
    rw [htc2] at hclmem
    obtain ⟨t, ht, rfl⟩ := List.mem_map.mp hclmem
    exact occursMarkerCline _ _ (htclean t ht).2.2.2.2
  have hsplit := payloadSplit (p := p) hg hp hne hclean hpdnl hpdm hcl
  have hsent : pyContains (get_tourist_places p env) placesSentinel = true := by
    unfold pyContains
    rw [payloadData hg hp hne]
    refine occursAppL ?_ _
    refine occursAppR ?_ "In ".data
    refine occursAppR ?_ (shortPlace disp).data
    exact occursAppL (by decide) _
  have hlines : pySplitOn (String.mk ("In ".data ++ ((shortPlace disp).data ++
      (" these are the places you can go,".data ++
        ('\n' :: ((pyJoin "\n" (collectPlaces elems).1).data ++ ['\n'])))))) "\n" =
      String.mk ("In ".data ++ ((shortPlace disp).data ++
        " these are the places you can go,".data)) ::
        ((collectPlaces elems).1 ++ [""]) := by
    unfold pySplitOn
    simp only [mk_data_self]
    have hsh : "In ".data ++ ((shortPlace disp).data ++
        (" these are the places you can go,".data ++
          ('\n' :: ((pyJoin "\n" (collectPlaces elems).1).data ++ ['\n'])))) =
        ("In ".data ++ ((shortPlace disp).data ++
          " these are the places you can go,".data)) ++
        ('\n' :: ((pyJoin "\n" (collectPlaces elems).1).data ++ ['\n'])) := by
      simp [List.append_assoc]
    rw [hsh]
    rw [splitOnCharBoundary (by
      intro hmem
      rcases List.mem_append.mp hmem with h | h
      · revert h; decide
      · rcases List.mem_append.mp h with h | h
        · exact hpdnl h
        · revert h; decide)]
    rw [splitJoinNlTrail hne (fun n hn => (hnames n hn).2.2.1)]
    simp only [List.map_cons, List.map_append, mapMkData]
    rfl
  have hdrop : ((pySplitOn (String.mk ("In ".data ++ ((shortPlace disp).data ++
      (" these are the places you can go,".data ++
        ('\n' :: ((pyJoin "\n" (collectPlaces elems).1).data ++ ['\n'])))))) "\n").drop 1) =
      (collectPlaces elems).1 ++ [""] := by
    rw [hlines]
    rfl
  refine ⟨parseCoordsBlock (String.mk
      ('\n' :: (pyJoin "\n" (collectPlaces elems).2).data)),
    pyStrip (String.mk ("In ".data ++ ((shortPlace disp).data ++
      (" these are the places you can go,".data ++
        ('\n' :: ((pyJoin "\n" (collectPlaces elems).1).data ++ ['\n'])))))), ?_, ?_⟩
  · rw [placesStepSplitEq r parts p env _ _ hsent hsplit]
    rw [hdrop, attractionsFilter hnames]
  · rw [htc2]
    exact (parseBlockSub htclean).trans htsub2

/-- `placesStep` never touches the weather-derived fields. -/
theorem placesStepKeeps (r : TourismResponse) (parts : List String) (p : String)
    (env : Env) :
    (placesStep r parts p env).temperature = r.temperature ∧
    (placesStep r parts p env).precipitation_chance = r.precipitation_chance ∧
    (placesStep r parts p env).place = r.place ∧
    (placesStep r parts p env).latitude = r.latitude ∧
    (placesStep r parts p env).longitude = r.longitude := by
  simp only [placesStep]
  by_cases h1 : pyContains (get_tourist_places p env) placesSentinel = true
  · rw [if_pos h1]
    by_cases h2 : (pySplitOn (get_tourist_places p env) "COORDS:").length > 1
    · rw [if_pos h2]
      exact ⟨rfl, rfl, rfl, rfl, rfl⟩
    · rw [if_neg h2]
      exact ⟨rfl, rfl, rfl, rfl, rfl⟩
  · rw [if_neg h1]
    by_cases h2 : pyContains (pyLower (get_tourist_places p env)) dontKnowKey = true
    · rw [if_pos h2]
      exact ⟨rfl, rfl, rfl, rfl, rfl⟩
    · rw [if_neg h2]
      by_cases h3 : pyContains (pyLower (get_tourist_places p env)) couldntFindKey = true
      · rw [if_pos h3]
        exact ⟨rfl, rfl, rfl, rfl, rfl⟩
      · rw [if_neg h3]
        exact ⟨rfl, rfl, rfl, rfl, rfl⟩

/-- `placesStep` keeps `success` and `error` whenever the places string does
not carry the lowercase abort sentinel. -/
theorem placesStepSuccess (r : TourismResponse) (parts : List String) (p : String)
    (env : Env)
    (hnd : pyContains (pyLower (get_tourist_places p env)) dontKnowKey = false) :
    (placesStep r parts p env).success = r.success ∧
    (placesStep r parts p env).error = r.error := by
  simp only [placesStep]
  by_cases h1 : pyContains (get_tourist_places p env) placesSentinel = true
  · rw [if_pos h1]
    by_cases h2 : (pySplitOn (get_tourist_places p env) "COORDS:").length > 1
    · rw [if_pos h2]
      exact ⟨rfl, rfl⟩
    · rw [if_neg h2]
      exact ⟨rfl, rfl⟩
  · rw [if_neg h1, if_neg (by rw [hnd]; simp)]
    by_cases h3 : pyContains (pyLower (get_tourist_places p env)) couldntFindKey = true
    · rw [if_pos h3]
      exact ⟨rfl, rfl⟩
    · rw [if_neg h3]
      exact ⟨rfl, rfl⟩

/-- The response record `run` initialises after geocoding (coordinates only
when geocoding succeeded). -/
def initResponse (place_name : String) (env : Env) : TourismResponse :=
  { place := place_name, has_weather := true, has_places := true,
    success := true, message := "",
    latitude := if (get_coordinates place_name env.geo).success then
      (get_coordinates place_name env.geo).latitude else none,
    longitude := if (get_coordinates place_name env.geo).success then
      (get_coordinates place_name env.geo).longitude else none }

/-- `run` when the weather sentence parses: the two regex groups land in the
response and the sentence becomes the first message part. -/
theorem runTempBranch (q : String) (env : Env)
    (hq1 : q ≠ "") (hq2 : pyStrip q ≠ "") (hq3 : extract_place_name q ≠ "")
    (hw : (pyContains (get_weather (extract_place_name q) env) "°C" &&
           pyContains (get_weather (extract_place_name q) env) "currently") = true) :
    run q env = placesStep
      { initResponse (extract_place_name q) env with
        temperature :=
          (searchTemp (get_weather (extract_place_name q) env).data).map decValue,
        precipitation_chance :=
          (searchPrecip (get_weather (extract_place_name q) env).data).map
            (fun d => (natOfDigits d : ℤ)) }
      [get_weather (extract_place_name q) env] (extract_place_name q) env := by
  simp only [run]
  rw [if_neg (by simp [hq1, hq2]), if_neg hq3, if_pos hw]
  rfl

/-- `run` when the weather sentence does not parse and carries the abort
sentinel: the pipeline stops with `success = false`. -/
theorem runWeatherAbort (q : String) (env : Env)
    (hq1 : q ≠ "") (hq2 : pyStrip q ≠ "") (hq3 : extract_place_name q ≠ "")
    (hwn : (pyContains (get_weather (extract_place_name q) env) "°C" &&
            pyContains (get_weather (extract_place_name q) env) "currently") = false)
    (hdk : pyContains (pyLower (get_weather (extract_place_name q) env))
      dontKnowKey = true) :
    run q env = { initResponse (extract_place_name q) env with
      success := false, error := some (get_weather (extract_place_name q) env) } := by
  simp only [run]
  rw [if_neg (by simp [hq1, hq2]), if_neg hq3, if_neg (by rw [hwn]; simp), if_pos hdk]
  rfl

/-- `run` when the weather sentence neither parses nor aborts: the weather
string is dropped and only the places step contributes. -/
theorem runElseBranch (q : String) (env : Env)
    (hq1 : q ≠ "") (hq2 : pyStrip q ≠ "") (hq3 : extract_place_name q ≠ "")
    (hwn : (pyContains (get_weather (extract_place_name q) env) "°C" &&
            pyContains (get_weather (extract_place_name q) env) "currently") = false)
    (hdkf : pyContains (pyLower (get_weather (extract_place_name q) env))
      dontKnowKey = false) :
    run q env = placesStep (initResponse (extract_place_name q) env) []
      (extract_place_name q) env := by
  simp only [run]
  rw [if_neg (by simp [hq1, hq2]), if_neg hq3, if_neg (by rw [hwn]; simp),
    if_neg (by rw [hdkf]; simp)]
  rfl

theorem occursPre3 {sub a b c : List Char} (h : occurs sub (a ++ (b ++ c)) = true)
    (d : List Char) : occurs sub (a ++ (b ++ (c ++ d))) = true := by
  have h2 := occursAppL h d
  simpa [List.append_assoc] using h2

/-- The abort sentinel `"don't know"` always occurs in the lowercased failure
sentence both tools produce when geocoding fails. -/
theorem dontKnowLower (p : String) (e : Option String) :
    pyContains (pyLower (dontKnowMsg p e)) dontKnowKey = true := by
  unfold pyContains pyLower dontKnowMsg
  simp only [catList, List.foldr, strCat, mk_data_self, List.append_nil, List.map_append]
  rw [show "I don".data.map lowerAscii = "i don".data from by decide]
  rw [show List.map lowerAscii apoS.data = [apoc] from by decide]
  rw [show List.map lowerAscii
      ['t', ' ', 'k', 'n', 'o', 'w', ' ', 'i', 'f', ' ', 't', 'h', 'e', ' ',
       'p', 'l', 'a', 'c', 'e', ' '] =
      ['t', ' ', 'k', 'n', 'o', 'w', ' ', 'i', 'f', ' ', 't', 'h', 'e', ' ',
       'p', 'l', 'a', 'c', 'e', ' '] from by decide]
  exact occursPre3 (by decide) _

/- Claim theorems. -/

/-- C1: for every query whose geocoding fails (zero matches, timeout, or
transport error), `run` returns `success = false` with a non-null `error`.
The side condition `hns` records that the failure sentence does not happen to
contain the places success sentinel (no value `extract_place_name` produces
can embed it, since the sentinel is eight lowercase space-separated words). -/
theorem geoFailAborts (q : String) (env : Env)
    (hf : geoFailed env.geo = true)
    (hns : pyContains (dontKnowMsg (extract_place_name q)
      (get_coordinates (extract_place_name q) env.geo).error) placesSentinel = false) :
    (run q env).success = false ∧ (run q env).error ≠ none := by
  by_cases hq1 : q = ""
  · unfold run
    rw [if_pos (Or.inl hq1)]
    exact ⟨rfl, by simp [emptyQueryResp]⟩
  by_cases hq2 : pyStrip q = ""
  · unfold run
    rw [if_pos (Or.inr hq2)]
    exact ⟨rfl, by simp [emptyQueryResp]⟩
  by_cases hq3 : extract_place_name q = ""
  · unfold run
    rw [if_neg (by simp [hq1, hq2]), if_pos hq3]
    exact ⟨rfl, by simp [noPlaceResp]⟩
  have hwm : get_weather (extract_place_name q) env =
      dontKnowMsg (extract_place_name q)
        (get_coordinates (extract_place_name q) env.geo).error := weatherGeoFail hf
  have hpm : get_tourist_places (extract_place_name q) env =
      dontKnowMsg (extract_place_name q)
        (get_coordinates (extract_place_name q) env.geo).error := placesGeoFail hf
  have hdk : pyContains (pyLower (get_weather (extract_place_name q) env))
      dontKnowKey = true := by
    rw [hwm]
    exact dontKnowLower _ _
  by_cases hw : (pyContains (get_weather (extract_place_name q) env) "°C" &&
      pyContains (get_weather (extract_place_name q) env) "currently") = true
  · rw [runTempBranch q env hq1 hq2 hq3 hw]
    simp only [placesStep]
    rw [if_neg (by rw [hpm, hns]; simp)]
    rw [if_pos (by rw [hpm]; exact dontKnowLower _ _)]
    exact ⟨rfl, by simp⟩
  · have hwf : (pyContains (get_weather (extract_place_name q) env) "°C" &&
        pyContains (get_weather (extract_place_name q) env) "currently") = false := by
      revert hw
      cases pyContains (get_weather (extract_place_name q) env) "°C" &&
        pyContains (get_weather (extract_place_name q) env) "currently" <;> simp
    rw [runWeatherAbort q env hq1 hq2 hq3 hwf hdk]
    exact ⟨rfl, by simp [initResponse]⟩

/-- A request during which the geocoding service finds no match. -/
def envC1 : Env := { geo := .notFound, weather := .timeout, places := .timeout }

/-- C1 witness: the claim theorem instantiated at a concrete failing request. -/
theorem geoFailAbortsWitness :
    (run "Paris" envC1).success = false ∧ (run "Paris" envC1).error ≠ none :=
  geoFailAborts "Paris" envC1 (by decide) (by decide)

/-- C2 (amended): when geocoding succeeds but the forecast carries no
temperature, the pipeline does not abort — `temperature` stays null and
`success` stays true (absent the abort sentinel in the tool strings) — but the
"Weather data is currently unavailable" sentence is NOT appended: `run`
proceeds to the places step with an empty message-parts list. -/
theorem weatherUnavailableDropped (q : String) (env : Env) (disp : String)
    (gla glo : ℚ) (pp : Option String)
    (hq1 : q ≠ "") (hq2 : pyStrip q ≠ "") (hq3 : extract_place_name q ≠ "")
    (hg : env.geo = .found disp gla glo)
    (hw : env.weather = .ok ⟨none, pp⟩)
    (hdeg : '°' ∉ (shortPlace disp).data)
    (hwdk : pyContains (pyLower (get_weather (extract_place_name q) env))
      dontKnowKey = false)
    (hnd : pyContains (pyLower (get_tourist_places (extract_place_name q) env))
      dontKnowKey = false) :
    (run q env).temperature = none ∧ (run q env).success = true ∧
    run q env = placesStep (initResponse (extract_place_name q) env) []
      (extract_place_name q) env := by
  have hweq := weatherUnavailableEq (p := extract_place_name q) hg hw rfl
  have hnoC : pyContains (get_weather (extract_place_name q) env) "°C" = false := by
    rw [hweq]
    unfold pyContains
    have hdata : (catList ["Weather data is currently unavailable for ",
        shortPlace disp, "."]).data =
        "Weather data is currently unavailable for ".data ++
          ((shortPlace disp).data ++ (".".data ++ [])) := rfl
    rw [hdata, show "°C".data = '°' :: ['C'] from rfl]
    apply occursFalseHead
    have h1 : ∀ c ∈ "Weather data is currently unavailable for ".data, c ≠ '°' := by
      decide
    have h3 : ∀ c ∈ ".".data, c ≠ '°' := by decide
    intro c hc
    rcases List.mem_append.mp hc with h | h
    · exact h1 c h
    · rcases List.mem_append.mp h with h | h
      · exact fun he => hdeg (he ▸ h)
      · rcases List.mem_append.mp h with h | h
        · exact h3 c h
        · simp at h
  have hwn : (pyContains (get_weather (extract_place_name q) env) "°C" &&
      pyContains (get_weather (extract_place_name q) env) "currently") = false := by
    rw [hnoC]
    simp
  rw [runElseBranch q env hq1 hq2 hq3 hwn hwdk]
  refine ⟨?_, ?_, rfl⟩
  · rw [(placesStepKeeps _ _ _ _).1]
    rfl
  · rw [(placesStepSuccess _ _ _ _ hnd).1]
    rfl

/-- A request whose forecast response has no temperature member. -/
def envC2 : Env :=
  { geo := .found "Paris, Ile-de-France, France" 48 2,
    weather := .ok ⟨none, some "10"⟩,
    places := .ok [⟨"node", some "Louvre", some 48, some 2, none⟩] }

/-- C2 counterexample: with the temperature missing, the pipeline keeps
`success = true` and a null temperature, yet the final message contains no
trace of the "currently unavailable" weather sentence — it was never
appended. -/
theorem weatherUnavailableNotAppended :
    (run "Paris" envC2).success = true ∧
    (run "Paris" envC2).temperature = none ∧
    pyContains (run "Paris" envC2).message "unavailable" = false ∧
    (run "Paris" envC2).message =
      "In Paris these are the places you can go,\nLouvre" := by
  refine ⟨by decide, by decide, by decide, by decide⟩

/-- C2 witness: the amended theorem instantiated at a concrete request. -/
theorem weatherUnavailableDroppedWitness :
    (run "Paris" envC2).temperature = none ∧ (run "Paris" envC2).success = true ∧
    run "Paris" envC2 = placesStep (initResponse (extract_place_name "Paris") envC2) []
      (extract_place_name "Paris") envC2 :=
  weatherUnavailableDropped "Paris" envC2 "Paris, Ile-de-France, France" 48 2 (some "10")
    (by decide) (by decide) (by decide) rfl rfl (by decide) (by decide) (by decide)

/-- C3 (amended): with cleanly named features (names that survive the payload
round trip: non-empty, stripped, free of newlines, pipes and the `COORDS:`
marker), the response satisfies the claimed invariants: at most five
attractions, and no more coordinate records than attractions.  (The unamended
claim fails: a whitespace-only feature name is dropped from `attractions` by
the orchestrator's strip-filter but keeps its coordinate record.) -/
theorem attractionBounds (q : String) (env : Env) (disp : String) (gla glo : ℚ)
    (elems : List OsmElement)
    (hq1 : q ≠ "") (hq2 : pyStrip q ≠ "") (hq3 : extract_place_name q ≠ "")
    (hg : env.geo = .found disp gla glo)
    (hp : env.places = .ok elems)
    (hclean : ∀ e ∈ elems, ∀ n, e.name = some n → n ≠ "" → cleanName n)
    (hne : (collectPlaces elems).1 ≠ [])
    (hpdnl : '\n' ∉ (shortPlace disp).data)
    (hpdm : occurs "COORDS:".data (shortPlace disp).data = false)
    (hwdk : pyContains (pyLower (get_weather (extract_place_name q) env))
      dontKnowKey = false) :
    ∃ a c, (run q env).attractions = some a ∧
      (run q env).attractions_with_coords = some c ∧
      a.length ≤ 5 ∧ c.length ≤ a.length := by
  have main : ∀ (r0 : TourismResponse) (parts : List String),
      ∃ a c, (placesStep r0 parts (extract_place_name q) env).attractions = some a ∧
        (placesStep r0 parts (extract_place_name q) env).attractions_with_coords = some c ∧
        a.length ≤ 5 ∧ c.length ≤ a.length := by
    intro r0 parts
    obtain ⟨parsed, mt, heq, hsub⟩ :=
      placesStepClean r0 parts hg hp hclean hne hpdnl hpdm
    rw [heq]
    refine ⟨(collectPlaces elems).1, parsed, rfl, rfl, collectLen elems, ?_⟩
    have hlen := hsub.length_le
    simpa using hlen
  by_cases hw : (pyContains (get_weather (extract_place_name q) env) "°C" &&
      pyContains (get_weather (extract_place_name q) env) "currently") = true
  · rw [runTempBranch q env hq1 hq2 hq3 hw]
    exact main _ _
  · have hwf : (pyContains (get_weather (extract_place_name q) env) "°C" &&
        pyContains (get_weather (extract_place_name q) env) "currently") = false := by
      revert hw
      cases pyContains (get_weather (extract_place_name q) env) "°C" &&
        pyContains (get_weather (extract_place_name q) env) "currently" <;> simp
    rw [runElseBranch q env hq1 hq2 hq3 hwf hwdk]
    exact main _ _

/-- A request whose only feature is named by a single space. -/
def envC3 : Env :=
  { geo := .found "Paris, France" 48 2,
    weather := .timeout,
    places := .ok [⟨"node", some " ", some 48, some 2, none⟩] }

/-- C3 counterexample: the whitespace-named feature is filtered out of
`attractions` (its stripped line is empty) yet its coordinate line still
parses, so `attractions_with_coords` outgrows `attractions`. -/
theorem attractionBoundsCounterexample :
    (run "Paris" envC3).attractions = some [] ∧
    (run "Paris" envC3).attractions_with_coords = some [⟨"", 48, 2⟩] ∧
    ((run "Paris" envC3).attractions_with_coords.getD []).length >
      ((run "Paris" envC3).attractions.getD []).length :=
  ⟨by decide, by decide, by decide⟩

/-- A request with one cleanly named feature carrying coordinates. -/
def envC3W : Env :=
  { geo := .found "Paris, France" 48 2,
    weather := .timeout,
    places := .ok [⟨"node", some "Louvre", some 48, some 2, none⟩] }

/-- C3 witness: the amended theorem instantiated at a concrete request. -/
theorem attractionBoundsWitness :
    ∃ a c, (run "Paris" envC3W).attractions = some a ∧
      (run "Paris" envC3W).attractions_with_coords = some c ∧
      a.length ≤ 5 ∧ c.length ≤ a.length :=
  attractionBounds "Paris" envC3W "Paris, France" 48 2
    [⟨"node", some "Louvre", some 48, some 2, none⟩]
    (by decide) (by decide) (by decide) rfl rfl (by decide) (by decide)
    (by decide) (by decide) (by decide)

/-- C4 (amended): with cleanly named features, the coordinate records' names
form a sublist of `attractions` — every name appears there, in the same
relative order.  (The unamended claim fails: a whitespace-only feature name
yields a coordinate record whose stripped name is absent from
`attractions`.) -/
theorem coordNamesSublist (q : String) (env : Env) (disp : String) (gla glo : ℚ)
    (elems : List OsmElement)
    (hq1 : q ≠ "") (hq2 : pyStrip q ≠ "") (hq3 : extract_place_name q ≠ "")
    (hg : env.geo = .found disp gla glo)
    (hp : env.places = .ok elems)
    (hclean : ∀ e ∈ elems, ∀ n, e.name = some n → n ≠ "" → cleanName n)
    (hne : (collectPlaces elems).1 ≠ [])
    (hpdnl : '\n' ∉ (shortPlace disp).data)
    (hpdm : occurs "COORDS:".data (shortPlace disp).data = false)
    (hwdk : pyContains (pyLower (get_weather (extract_place_name q) env))
      dontKnowKey = false) :
    ∃ a c, (run q env).attractions = some a ∧
      (run q env).attractions_with_coords = some c ∧
      List.Sublist (c.map AttractionWithCoords.name) a := by
  have main : ∀ (r0 : TourismResponse) (parts : List String),
      ∃ a c, (placesStep r0 parts (extract_place_name q) env).attractions = some a ∧
        (placesStep r0 parts (extract_place_name q) env).attractions_with_coords = some c ∧
        List.Sublist (c.map AttractionWithCoords.name) a := by
    intro r0 parts
    obtain ⟨parsed, mt, heq, hsub⟩ :=
      placesStepClean r0 parts hg hp hclean hne hpdnl hpdm
    rw [heq]
    exact ⟨(collectPlaces elems).1, parsed, rfl, rfl, hsub⟩
  by_cases hw : (pyContains (get_weather (extract_place_name q) env) "°C" &&
      pyContains (get_weather (extract_place_name q) env) "currently") = true
  · rw [runTempBranch q env hq1 hq2 hq3 hw]
    exact main _ _
  · have hwf : (pyContains (get_weather (extract_place_name q) env) "°C" &&
        pyContains (get_weather (extract_place_name q) env) "currently") = false := by
      revert hw
      cases pyContains (get_weather (extract_place_name q) env) "°C" &&
        pyContains (get_weather (extract_place_name q) env) "currently" <;> simp
    rw [runElseBranch q env hq1 hq2 hq3 hwf hwdk]
    exact main _ _

/-- A request whose only feature is named by a single space (C4). -/
def envC4 : Env :=
  { geo := .found "Paris, France" 48 2,
    weather := .timeout,
    places := .ok [⟨"node", some " ", some 48, some 2, none⟩] }

/-- C4 counterexample: the coordinate record's name (the stripped whitespace
name, i.e. the empty string) does not appear in `attractions` at all. -/
theorem coordNamesCounterexample :
    (run "Paris" envC4).attractions = some [] ∧
    (run "Paris" envC4).attractions_with_coords = some [⟨"", 48, 2⟩] ∧
    (⟨"", 48, 2⟩ : AttractionWithCoords).name ∉ ([] : List String) :=
  ⟨by decide, by decide, by decide⟩

/-- A request with two cleanly named features, one of them without usable
coordinates (C4). -/
def envC4W : Env :=
  { geo := .found "Paris, France" 48 2,
    weather := .timeout,
    places := .ok [⟨"node", some "Louvre", some 48, some 2, none⟩,
                   ⟨"node", some "Orsay", none, none, none⟩] }

/-- C4 witness: the amended theorem instantiated at a concrete request. -/
theorem coordNamesSublistWitness :
    ∃ a c, (run "Paris" envC4W).attractions = some a ∧
      (run "Paris" envC4W).attractions_with_coords = some c ∧
      List.Sublist (c.map AttractionWithCoords.name) a :=
  coordNamesSublist "Paris" envC4W "Paris, France" 48 2
    [⟨"node", some "Louvre", some 48, some 2, none⟩,
     ⟨"node", some "Orsay", none, none, none⟩]
    (by decide) (by decide) (by decide) rfl rfl (by decide) (by decide)
    (by decide) (by decide) (by decide)

/- Characterization of the two orchestrator regex searches on templated text. -/

theorem takeWhileAppNe {p : Char → Bool} :
    ∀ (l y : List Char), l.dropWhile p ≠ [] →
      (l ++ y).takeWhile p = l.takeWhile p := by
  intro l
  induction l with
  | nil => intro y h; exact absurd rfl h
  | cons c l2 ih =>
    intro y h
    by_cases hc : p c = true
    · rw [List.cons_append, List.takeWhile_cons_of_pos hc, List.takeWhile_cons_of_pos hc]
      rw [List.dropWhile_cons_of_pos hc] at h
      rw [ih y h]
    · have hc2 : p c = false := by revert hc; cases p c <;> simp
      rw [List.cons_append, List.takeWhile_cons_of_neg (by simp [hc2]),
        List.takeWhile_cons_of_neg (by simp [hc2])]

theorem dropWhileAppNe {p : Char → Bool} :
    ∀ (l y : List Char), l.dropWhile p ≠ [] →
      (l ++ y).dropWhile p = l.dropWhile p ++ y := by
  intro l
  induction l with
  | nil => intro y h; exact absurd rfl h
  | cons c l2 ih =>
    intro y h
    by_cases hc : p c = true
    · rw [List.cons_append, List.dropWhile_cons_of_pos hc, List.dropWhile_cons_of_pos hc]
      rw [List.dropWhile_cons_of_pos hc] at h
      rw [ih y h]
    · have hc2 : p c = false := by revert hc; cases p c <;> simp
      rw [List.cons_append, List.dropWhile_cons_of_neg (by simp [hc2]),
        List.dropWhile_cons_of_neg (by simp [hc2]), List.cons_append]

theorem takeWhileAllStop {p : Char → Bool} {b : Char} (hb : p b = false) :
    ∀ (a t : List Char), (∀ c ∈ a, p c = true) →
      (a ++ b :: t).takeWhile p = a ∧ (a ++ b :: t).dropWhile p = b :: t := by
  intro a
  induction a with
  | nil =>
    intro t _
    rw [List.nil_append]
    exact ⟨List.takeWhile_cons_of_neg (by simp [hb]),
           List.dropWhile_cons_of_neg (by simp [hb])⟩
  | cons c a2 ih =>
    intro t ha
    have hc : p c = true := ha c (by simp)
    rw [List.cons_append, List.takeWhile_cons_of_pos hc, List.dropWhile_cons_of_pos hc]
    have := ih t (fun d hd => ha d (by simp [hd]))
    exact ⟨by rw [this.1], this.2⟩

theorem dropWhileMem {p : Char → Bool} :
    ∀ {l : List Char} {r0 : Char} {rr : List Char},
      l.dropWhile p = r0 :: rr → r0 ∈ l := by
  intro l
  induction l with
  | nil => intro r0 rr h; simp [List.dropWhile] at h
  | cons c l2 ih =>
    intro r0 rr h
    by_cases hc : p c = true
    · rw [List.dropWhile_cons_of_pos hc] at h
      exact List.mem_cons_of_mem c (ih h)
    · have hc2 : p c = false := by revert hc; cases p c <;> simp
      rw [List.dropWhile_cons_of_neg (by simp [hc2])] at h
      have hr : r0 = c := ((List.cons.injEq _ _ _ _).mp h).1.symm
      rw [hr]
      exact List.mem_cons_self c l2

/-- The temperature regex finds nothing while scanning digit-free text. -/
theorem searchTempSkipAll :
    ∀ {x : List Char} (y : List Char), (∀ ch ∈ x, ch.isDigit = false) →
      searchTemp (x ++ y) = searchTemp y := by
  intro x
  induction x with
  | nil => intro y _; rfl
  | cons c x2 ih =>
    intro y hx
    have hc : c.isDigit = false := hx c (by simp)
    have hm : matchTempAt (c :: (x2 ++ y)) = none := by
      unfold matchTempAt
      rw [List.takeWhile_cons_of_neg (by simp [hc])]
      simp
    rw [List.cons_append]
    show (match matchTempAt (c :: (x2 ++ y)) with
      | some g => some g
      | none => searchTemp (x2 ++ y)) = searchTemp y
    rw [hm]
    exact ih y (fun d hd => hx d (by simp [hd]))

theorem searchTempConsSome {c : Char} {rest g : List Char}
    (h : matchTempAt (c :: rest) = some g) : searchTemp (c :: rest) = some g := by
  show (match matchTempAt (c :: rest) with
    | some g => some g
    | none => searchTemp rest) = some g
  rw [h]

/-- The temperature regex at the start of `digits.digits` followed by `°C`. -/
theorem matchTempAtHit {d1 d2 r : List Char} (hd1 : d1 ≠ [])
    (hd1d : ∀ c ∈ d1, c.isDigit = true) (hd2d : ∀ c ∈ d2, c.isDigit = true) :
    matchTempAt (d1 ++ '.' :: (d2 ++ '°' :: 'C' :: r)) = some (d1 ++ '.' :: d2) := by
  unfold matchTempAt
  have h1 := takeWhileAllStop (p := Char.isDigit) (b := '.') (by decide)
    d1 (d2 ++ '°' :: 'C' :: r) hd1d
  rw [h1.1, h1.2]
  rw [if_neg (by simp [hd1])]
  show (if startsWith (List.dropWhile Char.isDigit (d2 ++ '°' :: 'C' :: r))
      "°C".data = true then
      some (d1 ++ '.' :: List.takeWhile Char.isDigit (d2 ++ '°' :: 'C' :: r))
    else none) = some (d1 ++ '.' :: d2)
  have h2 := takeWhileAllStop (p := Char.isDigit) (b := '°') (by decide)
    d2 ('C' :: r) hd2d
  rw [h2.1, h2.2]
  rw [if_pos (by simp [startsWith, show "°C".data = ['°', 'C'] from rfl])]

/-- The precipitation regex at the start of `digits` followed by `%`. -/
theorem matchPrecipAtHit {d r : List Char} (hd : d ≠ [])
    (hdd : ∀ c ∈ d, c.isDigit = true) :
    matchPrecipAt (d ++ '%' :: r) = some d := by
  unfold matchPrecipAt
  have h1 := takeWhileAllStop (p := Char.isDigit) (b := '%') (by decide)
    d r hdd
  rw [h1.1, h1.2]
  rw [if_neg (by simp [hd])]
  rw [if_pos (by simp [startsWith])]

theorem searchPrecipConsSome {c : Char} {rest g : List Char}
    (h : matchPrecipAt (c :: rest) = some g) : searchPrecip (c :: rest) = some g := by
  show (match matchPrecipAt (c :: rest) with
    | some g => some g
    | none => searchPrecip rest) = some g
  rw [h]

/-- The precipitation regex finds nothing while scanning a percent-free block
that ends in a non-digit (no digit run inside it can reach a `%`). -/
theorem searchPrecipSkip (y : List Char) :
    ∀ (z : List Char) (c : Char), c.isDigit = false → '%' ∉ z ++ [c] →
      searchPrecip ((z ++ [c]) ++ y) = searchPrecip y := by
  intro z
  induction z with
  | nil =>
    intro c hc hp
    have hm : matchPrecipAt (c :: y) = none := by
      unfold matchPrecipAt
      rw [List.takeWhile_cons_of_neg (by simp [hc])]
      simp
    show (match matchPrecipAt (c :: y) with
      | some g => some g
      | none => searchPrecip y) = searchPrecip y
    rw [hm]
  | cons a z2 ih =>
    intro c hc hp
    have hdne : (a :: (z2 ++ [c])).dropWhile Char.isDigit ≠ [] := by
      intro hnil
      have hall := List.dropWhile_eq_nil_iff.mp hnil
      have := hall c (by simp)
      rw [hc] at this
      exact Bool.false_ne_true this
    obtain ⟨r0, rr, hrx⟩ : ∃ r0 rr, (a :: (z2 ++ [c])).dropWhile Char.isDigit = r0 :: rr := by
      cases hd : (a :: (z2 ++ [c])).dropWhile Char.isDigit with
      | nil => exact absurd hd hdne
      | cons r0 rr => exact ⟨r0, rr, rfl⟩
    have hr0mem : r0 ∈ a :: (z2 ++ [c]) := dropWhileMem hrx
    have hr0ne : r0 ≠ '%' := by
      intro hcontr
      rw [hcontr] at hr0mem
      exact hp (by simpa using hr0mem)
    have hm : matchPrecipAt ((a :: (z2 ++ [c])) ++ y) = none := by
      unfold matchPrecipAt
      rw [takeWhileAppNe _ _ hdne, dropWhileAppNe _ _ hdne, hrx]
      by_cases hw : (a :: (z2 ++ [c])).takeWhile Char.isDigit = []
      · rw [if_pos hw]
      · rw [if_neg hw]
        rw [if_neg (by simp [startsWith, hr0ne])]
    have hshape : (a :: (z2 ++ [c])) ++ y = a :: ((z2 ++ [c]) ++ y) := rfl
    rw [hshape] at hm
    show (match matchPrecipAt (a :: ((z2 ++ [c]) ++ y)) with
      | some g => some g
      | none => searchPrecip ((z2 ++ [c]) ++ y)) = searchPrecip y
    rw [hm]
    exact ih c hc (fun hmem => hp (by simp [List.mem_append] at hmem ⊢; tauto))

theorem searchTempHit {d1 d2 r : List Char} (hd1 : d1 ≠ [])
    (hd1d : ∀ c ∈ d1, c.isDigit = true) (hd2d : ∀ c ∈ d2, c.isDigit = true) :
    searchTemp (d1 ++ '.' :: (d2 ++ '°' :: 'C' :: r)) = some (d1 ++ '.' :: d2) := by
  cases d1 with
  | nil => exact absurd rfl hd1
  | cons c d1b =>
    rw [List.cons_append]
    refine searchTempConsSome ?_
    rw [← List.cons_append]
    exact matchTempAtHit hd1 hd1d hd2d

theorem searchPrecipHit {d r : List Char} (hd : d ≠ [])
    (hdd : ∀ c ∈ d, c.isDigit = true) :
    searchPrecip (d ++ '%' :: r) = some d := by
  cases d with
  | nil => exact absurd rfl hd
  | cons c db =>
    rw [List.cons_append]
    refine searchPrecipConsSome ?_
    rw [← List.cons_append]
    exact matchPrecipAtHit hd hdd

/-- C5 (amended): for the templated weather sentence with a plain nonnegative
decimal temperature `d1.d2` and integer precipitation `pp` (and a short place
label free of digits and percent signs), the orchestrator's re-parse recovers
exactly the interpolated values: `temperature` becomes the numeric value of
the temperature text and `precipitation_chance` the precipitation integer.
(The unamended claim fails for negative temperatures: the sign is outside the
`(\d+\.?\d*)` group, so `-5.0` parses as `5.0`.) -/
theorem tempPrecipParsed (q : String) (env : Env) (disp : String) (gla glo : ℚ)
    (t pp : String) (d1 d2 : List Char)
    (hq1 : q ≠ "") (hq2 : pyStrip q ≠ "") (hq3 : extract_place_name q ≠ "")
    (hg : env.geo = .found disp gla glo)
    (hw : env.weather = .ok ⟨some t, some pp⟩)
    (ht : t.data = d1 ++ '.' :: d2)
    (hd1 : d1 ≠ []) (hd1d : ∀ c ∈ d1, c.isDigit = true)
    (hd2d : ∀ c ∈ d2, c.isDigit = true)
    (hppne : pp.data ≠ []) (hppd : ∀ c ∈ pp.data, c.isDigit = true)
    (hdd : ∀ c ∈ (shortPlace disp).data, c.isDigit = false)
    (hdp : '%' ∉ (shortPlace disp).data) :
    (run q env).temperature = some (decValue t.data) ∧
    (run q env).precipitation_chance = some ((natOfDigits pp.data : ℤ)) := by
  have hweq := weatherSentenceEq (p := extract_place_name q) hg hw rfl
  rw [show (({ temperature_2m := some t, precipitation_probability := some pp } :
    CurrentWeather).precipitation_probability.getD "0") = pp from rfl] at hweq
  have hdata : (catList ["In ", shortPlace disp, " it", apoS, "s currently ", t,
      "°C with a chance of ", pp, "% to rain."]).data =
      "In ".data ++ ((shortPlace disp).data ++ (" it".data ++ ([apoc] ++
        ("s currently ".data ++ (t.data ++ ("°C with a chance of ".data ++
          (pp.data ++ ("% to rain.".data ++ [])))))))) := rfl
  have hC : pyContains (get_weather (extract_place_name q) env) "°C" = true := by
    unfold pyContains
    rw [hweq, hdata]
    refine occursAppR (occursAppR (occursAppR (occursAppR (occursAppR (occursAppR
      (occursAppL (by decide) _) t.data) "s currently ".data) [apoc]) " it".data)
      (shortPlace disp).data) "In ".data
  have hCur : pyContains (get_weather (extract_place_name q) env) "currently" = true := by
    unfold pyContains
    rw [hweq, hdata]
    refine occursAppR (occursAppR (occursAppR (occursAppR
      (occursAppL (by decide) _) [apoc]) " it".data)
      (shortPlace disp).data) "In ".data
  have htrue : (pyContains (get_weather (extract_place_name q) env) "°C" &&
      pyContains (get_weather (extract_place_name q) env) "currently") = true := by
    rw [hC, hCur]
    rfl
  rw [runTempBranch q env hq1 hq2 hq3 htrue]
  constructor
  · rw [(placesStepKeeps _ _ _ _).1]
    show (searchTemp (get_weather (extract_place_name q) env).data).map decValue =
      some (decValue t.data)
    rw [hweq, hdata]
    have hsh1 : "In ".data ++ ((shortPlace disp).data ++ (" it".data ++ ([apoc] ++
        ("s currently ".data ++ (t.data ++ ("°C with a chance of ".data ++
          (pp.data ++ ("% to rain.".data ++ [])))))))) =
        ("In ".data ++ ((shortPlace disp).data ++ (" it".data ++ ([apoc] ++
          "s currently ".data)))) ++
        (t.data ++ ("°C with a chance of ".data ++
          (pp.data ++ ("% to rain.".data ++ [])))) := by
      simp [List.append_assoc]
    rw [hsh1]
    rw [searchTempSkipAll _ (by
      intro ch hch
      rcases List.mem_append.mp hch with h | h
      · exact (by decide : ∀ x ∈ "In ".data, x.isDigit = false) ch h
      · rcases List.mem_append.mp h with h | h
        · exact hdd ch h
        · rcases List.mem_append.mp h with h | h
          · exact (by decide : ∀ x ∈ " it".data, x.isDigit = false) ch h
          · rcases List.mem_append.mp h with h | h
            · exact (by decide : ∀ x ∈ [apoc], x.isDigit = false) ch h
            · exact (by decide : ∀ x ∈ "s currently ".data, x.isDigit = false) ch h)]
    rw [ht]
    rw [show "°C with a chance of ".data =
      '°' :: 'C' :: " with a chance of ".data from rfl]
    have hsh2 : (d1 ++ '.' :: d2) ++
        (('°' :: 'C' :: " with a chance of ".data) ++
          (pp.data ++ ("% to rain.".data ++ []))) =
        d1 ++ '.' :: (d2 ++ '°' :: 'C' ::
          (" with a chance of ".data ++ (pp.data ++ ("% to rain.".data ++ [])))) := by
      simp [List.append_assoc]
    rw [hsh2, searchTempHit hd1 hd1d hd2d]
    rw [← ht]
    rfl
  · rw [(placesStepKeeps _ _ _ _).2.1]
    show (searchPrecip (get_weather (extract_place_name q) env).data).map
      (fun d => (natOfDigits d : ℤ)) = some ((natOfDigits pp.data : ℤ))
    rw [hweq, hdata]
    have hsh3 : "In ".data ++ ((shortPlace disp).data ++ (" it".data ++ ([apoc] ++
        ("s currently ".data ++ (t.data ++ ("°C with a chance of ".data ++
          (pp.data ++ ("% to rain.".data ++ [])))))))) =
        ((("In ".data ++ ((shortPlace disp).data ++ (" it".data ++ ([apoc] ++
          ("s currently ".data ++ (t.data ++ "°C with a chance of".data)))))) ++
          [' ']) ++ (pp.data ++ ('%' :: (" to rain.".data ++ [])))) := by
      rw [show "°C with a chance of ".data =
        "°C with a chance of".data ++ [' '] from rfl]
      rw [show "% to rain.".data = '%' :: " to rain.".data from rfl]
      simp [List.append_assoc]
    rw [hsh3]
    rw [searchPrecipSkip _ _ ' ' (by decide) (by
      intro hmem
      rcases List.mem_append.mp hmem with h | h
      · rcases List.mem_append.mp h with h | h
        · revert h; decide
        · rcases List.mem_append.mp h with h | h
          · exact hdp h
          · rcases List.mem_append.mp h with h | h
            · revert h; decide
            · rcases List.mem_append.mp h with h | h
              · revert h; decide
              · rcases List.mem_append.mp h with h | h
                · revert h; decide
                · rcases List.mem_append.mp h with h | h
                  · rw [ht] at h
                    rcases List.mem_append.mp h with h | h
                    · have := hd1d _ h
                      revert this; decide
                    · rcases List.mem_cons.mp h with h | h
                      · exact absurd h (by decide)
                      · have := hd2d _ h
                        revert this; decide
                  · revert h; decide
      · revert h; decide)]
    rw [searchPrecipHit hppne hppd]
    rfl

/-- A request whose forecast reports a negative temperature. -/
def envC5 : Env :=
  { geo := .found "Oslo, Norway" 59 10,
    weather := .ok ⟨some "-5.0", some "10"⟩,
    places := .timeout }

/-- C5 counterexample: the weather tool interpolates `-5.0` into the
templated sentence, but the re-parse group `(\d+\.?\d*)` cannot see the sign:
the response reports `5`, not `-5`. -/
theorem tempNegCounterexample :
    (run "Oslo" envC5).temperature = some 5 ∧
    (run "Oslo" envC5).temperature ≠ some (-5 : ℚ) :=
  ⟨by decide, by decide⟩

/-- A request whose forecast reports `24.5` degrees and `10` percent. -/
def envC5W : Env :=
  { geo := .found "Paris, France" 48 2,
    weather := .ok ⟨some "24.5", some "10"⟩,
    places := .timeout }

/-- C5 witness: the amended theorem instantiated at a concrete request. -/
theorem tempPrecipParsedWitness :
    (run "Paris" envC5W).temperature = some (decValue "24.5".data) ∧
    (run "Paris" envC5W).precipitation_chance = some ((natOfDigits "10".data : ℤ)) :=
  tempPrecipParsed "Paris" envC5W "Paris, France" 48 2 "24.5" "10"
    ['2', '4'] ['5']
    (by decide) (by decide) (by decide) rfl rfl (by decide) (by decide)
    (by decide) (by decide) (by decide) (by decide) (by decide) (by decide)

/-- C6 (amended): when both downstream calls time out after successful
geocoding, `success` indeed stays true and no error is set — but the failure
strings are NOT embedded in the assembled message: the weather string is
dropped by the parse branch, the places string matches no sentinel, and the
message falls back to `"Information for {place}"`. -/
theorem fetchFailSilent (q : String) (env : Env) (disp : String) (gla glo : ℚ)
    (hq1 : q ≠ "") (hq2 : pyStrip q ≠ "") (hq3 : extract_place_name q ≠ "")
    (hg : env.geo = .found disp gla glo)
    (hw : env.weather = .timeout)
    (hp : env.places = .timeout) :
    (run q env).success = true ∧ (run q env).error = none ∧
    (run q env).message = strCat "Information for " (extract_place_name q) := by
  have hwt := weatherTimeoutEq (p := extract_place_name q) hg hw
  have hpt := placesTimeoutEq (p := extract_place_name q) hg hp
  have hwn : (pyContains (get_weather (extract_place_name q) env) "°C" &&
      pyContains (get_weather (extract_place_name q) env) "currently") = false := by
    rw [hwt]
    decide
  have hdkf : pyContains (pyLower (get_weather (extract_place_name q) env))
      dontKnowKey = false := by
    rw [hwt]
    decide
  rw [runElseBranch q env hq1 hq2 hq3 hwn hdkf]
  simp only [placesStep]
  rw [if_neg (by rw [hpt]; decide), if_neg (by rw [hpt]; decide),
    if_neg (by rw [hpt]; decide)]
  exact ⟨rfl, rfl, rfl⟩

/-- A request during which both the weather and the places calls time out. -/
def envC6 : Env :=
  { geo := .found "Paris, France" 48 2, weather := .timeout, places := .timeout }

/-- C6 counterexample: both tool calls timed out, yet neither failure string
appears in the final message — it is the bare fallback sentence. -/
theorem fetchFailCounterexample :
    (run "Paris" envC6).success = true ∧
    (run "Paris" envC6).message = "Information for Paris" ∧
    pyContains (run "Paris" envC6).message "timed out" = false :=
  ⟨by decide, by decide, by decide⟩

/-- C6 witness: the amended theorem instantiated at a concrete request. -/
theorem fetchFailSilentWitness :
    (run "Paris" envC6).success = true ∧ (run "Paris" envC6).error = none ∧
    (run "Paris" envC6).message = strCat "Information for " (extract_place_name "Paris") :=
  fetchFailSilent "Paris" envC6 "Paris, France" 48 2
    (by decide) (by decide) (by decide) rfl rfl rfl

theorem joinContainsMem :
    ∀ {names : List String} {n : String}, n ∈ names →
      occurs n.data (pyJoin "\n" names).data = true := by
  intro names
  induction names with
  | nil => intro n h; simp at h
  | cons x rest ih =>
    intro n h
    rcases List.mem_cons.mp h with h | h
    · subst h
      cases rest with
      | nil =>
        show occurs n.data n.data = true
        have := swSelfApp n.data []
        rw [List.append_nil] at this
        exact occursOfSw this
      | cons y r =>
        rw [pyJoinDataCons]
        exact occursOfSw (swSelfApp n.data _)
    · cases rest with
      | nil => simp at h
      | cons y r =>
        rw [pyJoinDataCons]
        exact occursAppR (occursAppR (ih h) "\n".data) x.data

/-- C7 (amended): a truthy-named feature with neither a point coordinate nor a
centroid is omitted from the `COORDS:` block only — its name is still
collected into the name list and interpolated into the returned payload.
(The unamended claim fails: such a feature is not skipped outright.) -/
theorem noCoordStillListed (p : String) (env : Env) (disp : String) (gla glo : ℚ)
    (pre post : List OsmElement) (e : OsmElement) (n : String)
    (hg : env.geo = .found disp gla glo)
    (hp : env.places = .ok (pre ++ e :: post))
    (hname : e.name = some n) (hn : n ≠ "")
    (hlat : e.lat = none) (hlon : e.lon = none) (hcen : e.center = none)
    (hlen : (collectPlaces pre).1.length < 5)
    (hnot : n ∉ (collectPlaces pre).1)
    (hnp : '|' ∉ n.data)
    (hcleanOthers : ∀ e2 ∈ pre ++ e :: post, ∀ m, e2.name = some m → '|' ∉ m.data) :
    n ∈ (collectPlaces (pre ++ e :: post)).1 ∧
    pyContains (get_tourist_places p env) n = true ∧
    ∀ line ∈ (collectPlaces (pre ++ e :: post)).2,
      startsWith line.data (n.data ++ ['|']) = false := by
  have hskip : ∀ la lo, elementResolved e = (some la, some lo) → la = 0 ∨ lo = 0 := by
    intro la lo h
    unfold elementResolved at h
    rw [hlat, hlon, hcen] at h
    rw [if_pos (Or.inl rfl)] at h
    exact absurd h (by simp)
  obtain ⟨hmem, hlines⟩ :=
    collectSkipCoord pre post e n hname hn hskip hlen hnot hnp hcleanOthers
  refine ⟨hmem, ?_, hlines⟩
  have hne2 : (collectPlaces (pre ++ e :: post)).1 ≠ [] := by
    intro hc
    rw [hc] at hmem
    simp at hmem
  unfold pyContains
  rw [payloadData hg hp hne2]
  refine occursAppL ?_ _
  refine occursAppR ?_ "In ".data
  refine occursAppR ?_ (shortPlace disp).data
  refine occursAppR ?_ " these are the places you can go,".data
  refine occursConsR '\n' ?_
  exact occursAppL (joinContainsMem hmem) ['\n']

/-- A request whose only feature has a name but no coordinates at all. -/
def envC7 : Env :=
  { geo := .found "Paris, France" 48 2,
    weather := .timeout,
    places := .ok [⟨"node", some "Ghost", none, none, none⟩] }

/-- C7 counterexample: the coordinate-less feature is not skipped — its name
reaches the name list, the payload and the final attraction list; only the
`COORDS:` section stays empty. -/
theorem noCoordCounterexample :
    (collectPlaces [⟨"node", some "Ghost", none, none, none⟩]).1 = ["Ghost"] ∧
    (collectPlaces [⟨"node", some "Ghost", none, none, none⟩]).2 = [] ∧
    pyContains (get_tourist_places "Paris" envC7) "Ghost" = true ∧
    (run "Paris" envC7).attractions = some ["Ghost"] :=
  ⟨by decide, by decide, by decide, by decide⟩

/-- C7 witness: the amended theorem instantiated at a concrete request. -/
theorem noCoordStillListedWitness :
    "Ghost" ∈ (collectPlaces ([] ++ ⟨"node", some "Ghost", none, none, none⟩ :: [])).1 ∧
    pyContains (get_tourist_places "Paris" envC7) "Ghost" = true ∧
    ∀ line ∈ (collectPlaces ([] ++ ⟨"node", some "Ghost", none, none, none⟩ :: [])).2,
      startsWith line.data ("Ghost".data ++ ['|']) = false :=
  noCoordStillListed "Paris" envC7 "Paris, France" 48 2
    [] [] ⟨"node", some "Ghost", none, none, none⟩ "Ghost"
    rfl rfl rfl (by decide) rfl rfl rfl (by decide) (by decide) (by decide)
    (by decide)

/-- C9: a truthy-named feature whose resolved latitude or longitude is exactly
zero is kept in the name list but contributes no `COORDS:` line — the guard
`if lat and lon:` uses numeric truthiness, and `0.0` is falsy. -/
theorem zeroCoordOmitted (pre post : List OsmElement) (e : OsmElement) (n : String)
    (la lo : ℚ)
    (hname : e.name = some n) (hn : n ≠ "")
    (hres : elementResolved e = (some la, some lo)) (hz : la = 0 ∨ lo = 0)
    (hlen : (collectPlaces pre).1.length < 5)
    (hnot : n ∉ (collectPlaces pre).1)
    (hnp : '|' ∉ n.data)
    (hcleanOthers : ∀ e2 ∈ pre ++ e :: post, ∀ m, e2.name = some m → '|' ∉ m.data) :
    n ∈ (collectPlaces (pre ++ e :: post)).1 ∧
    ∀ line ∈ (collectPlaces (pre ++ e :: post)).2,
      startsWith line.data (n.data ++ ['|']) = false := by
  refine collectSkipCoord pre post e n hname hn ?_ hlen hnot hnp hcleanOthers
  intro la2 lo2 h
  rw [hres] at h
  simp only [Prod.mk.injEq, Option.some.injEq] at h
  obtain ⟨h1, h2⟩ := h
  rw [← h1, ← h2]
  exact hz

/-- C9 witness: the claim theorem instantiated at a concrete zero-latitude
feature. -/
theorem zeroCoordOmittedWitness :
    "Zero" ∈ (collectPlaces ([] ++ ⟨"node", some "Zero", some 0, some 2, none⟩ :: [])).1 ∧
    ∀ line ∈ (collectPlaces ([] ++ ⟨"node", some "Zero", some 0, some 2, none⟩ :: [])).2,
      startsWith line.data ("Zero".data ++ ['|']) = false :=
  zeroCoordOmitted [] [] ⟨"node", some "Zero", some 0, some 2, none⟩ "Zero" 0 2
    rfl (by decide) rfl (Or.inl rfl) (by decide) (by decide) (by decide) (by decide)

/-- C8: `run` is deterministic and stateless — the method's result is a pure
function of the query and the services' responses, and the agent object comes
back unchanged, so a repeat call against the same environment returns a
structurally identical response. -/
theorem runDeterministic (self : TourismAgent) (q : String) (env : Env) :
    agentRun self q env = (run q env, self) ∧
    agentRun (agentRun self q env).2 q env = agentRun self q env :=
  ⟨rfl, rfl⟩

/-- C10: a forecast with a temperature but no precipitation probability still
produces the normal success sentence, with the precipitation slot defaulting
to `0`. -/
theorem precipDefaultZero (p : String) (env : Env) (disp : String) (gla glo : ℚ)
    (t : String)
    (hg : env.geo = .found disp gla glo)
    (hw : env.weather = .ok ⟨some t, none⟩) :
    get_weather p env = catList ["In ", shortPlace disp, " it", apoS,
      "s currently ", t, "°C with a chance of ", "0", "% to rain."] := by
  have h := weatherSentenceEq (p := p) hg hw rfl
  rw [h]
  rfl

/-- A request whose forecast omits the precipitation probability. -/
def envC10 : Env :=
  { geo := .found "Paris, France" 48 2,
    weather := .ok ⟨some "24.5", none⟩,
    places := .timeout }

/-- C10 witness: the claim theorem instantiated at a concrete request. -/
theorem precipDefaultZeroWitness :
    get_weather "Paris" envC10 = catList ["In ", shortPlace "Paris, France",
      " it", apoS, "s currently ", "24.5", "°C with a chance of ", "0",
      "% to rain."] :=
  precipDefaultZero "Paris" envC10 "Paris, France" 48 2 "24.5" rfl rfl
